import Mathlib

/-!
Verification of the SSR (structural search-and-replace) core of rust-analyzer:
`crates/ra_ssr/src/parsing.rs` (rule / pattern / placeholder parsing and
validation) and `crates/ra_ssr/src/replacing.rs` (recursive edit composition).

Shallow embedding conventions:
- `SmolStr` and `String` are both modelled as Lean `String`.
- `TextSize` / byte offsets are modelled as `Nat`; text positions count
  characters, which coincides with bytes on the ASCII inputs exercised here.
- Fallible Rust code returning `Result<_, SsrError>` is modelled as
  `Except String _`, carrying the exact error message built by `bail!`.
- `panic!` / `.unwrap()` aborts inside the edit composer are modelled as an
  `Except RErr _` error result (`RErr` distinguishes the two abort causes).
- `ra_syntax::tokenize`, the five `ast::*::parse` grammar entry points,
  `str::trim`, `str::split` and `ra_text_edit` are code outside the two source
  files; they are modelled from the spec where marked.
-/

set_option maxHeartbeats 1600000

namespace Ssr

/-- The subset of `ra_syntax::SyntaxKind` that the SSR parser inspects
(`DOLLAR`, `IDENT`) together with the kinds appearing in the reference test;
`OTHER` stands for every remaining kind, which the parser treats uniformly. -/
inductive SyntaxKind where
  | DOLLAR
  | IDENT
  | WHITESPACE
  | L_PAREN
  | R_PAREN
  | COMMA
  | OTHER
deriving DecidableEq

/-- `Token` from parsing.rs: a syntax kind plus the exact source text slice. -/
structure Token where
  kind : SyntaxKind
  text : String
deriving DecidableEq

/-- `Placeholder` from parsing.rs. -/
structure Placeholder where
  ident : String
  stand_in_name : String
deriving DecidableEq

/-- `Placeholder::new`: `stand_in_name` is `format!("__placeholder_{}", name)`. -/
def Placeholder.new (name : String) : Placeholder :=
  { stand_in_name := "__placeholder_" ++ name, ident := name }

/-- `PatternElement` from parsing.rs. -/
inductive PatternElement where
  | token (t : Token)
  | placeholder (p : Placeholder)
deriving DecidableEq

/-- `parse_placeholder` from parsing.rs: the `$` has been consumed by the
caller; the next token must be an identifier.  The iterator is modelled by
returning the unconsumed remainder of the token list. -/
def parse_placeholder : List Token → Except String (Placeholder × List Token)
  | [] => .error "Placeholder ($) with no name"
  | t :: rest =>
    if t.kind = SyntaxKind.IDENT then .ok (Placeholder.new t.text, rest)
    else .error "Placeholders should be $name"

theorem parse_placeholder_shrinks {ts rest : List Token} {p : Placeholder}
    (h : parse_placeholder ts = .ok (p, rest)) : rest.length < ts.length := by
  cases ts with
  | nil => simp [parse_placeholder] at h
  | cons t r =>
    simp only [parse_placeholder] at h
    split at h
    · simp only [Except.ok.injEq, Prod.mk.injEq] at h
      rw [← h.2]
      exact Nat.lt_succ_self _
    · simp at h

/-- The error message of the duplicate-placeholder check in `parse_pattern`. -/
def dup_msg (ident : String) : String :=
  "Name `" ++ ident ++ "` repeats more than once"

/-- The token-scanning loop of `parse_pattern` from parsing.rs, with the
`placeholder_names` hash set modelled as the `seen` list (only membership is
used).  On a `DOLLAR` token it calls `parse_placeholder`, rejects an already
seen name, and otherwise records the placeholder; every other token is passed
through verbatim. -/
def parse_tokens_go (seen : List String) (toks : List Token) :
    Except String (List PatternElement) :=
  match toks with
  | [] => .ok []
  | t :: rest =>
    if t.kind = SyntaxKind.DOLLAR then
      match hp : parse_placeholder rest with
      | .error e => .error e
      | .ok (p, rest2) =>
        if p.ident ∈ seen then .error (dup_msg p.ident)
        else
          match parse_tokens_go (p.ident :: seen) rest2 with
          | .error e => .error e
          | .ok elems => .ok (.placeholder p :: elems)
    else
      match parse_tokens_go seen rest with
      | .error e => .error e
      | .ok elems => .ok (.token t :: elems)
termination_by toks.length
decreasing_by
  · have := parse_placeholder_shrinks hp
    simp only [List.length_cons]
    omega
  · simp only [List.length_cons]
    omega

/-- `parse_pattern`'s scan starting from an empty set of seen names. -/
def parse_tokens (toks : List Token) : Except String (List PatternElement) :=
  parse_tokens_go [] toks

def isIdentStart (c : Char) : Bool := c.isAlpha || c == '_'

def isIdentCont (c : Char) : Bool := c.isAlphanum || c == '_'

def punct_kind (c : Char) : SyntaxKind :=
  if c = '$' then SyntaxKind.DOLLAR
  else if c = '(' then SyntaxKind.L_PAREN
  else if c = ')' then SyntaxKind.R_PAREN
  else if c = ',' then SyntaxKind.COMMA
  else SyntaxKind.OTHER

/-- Modelled from the spec: the tokenizer adapter (`fn tokenize` in parsing.rs
wrapping `ra_syntax::tokenize`, which is not under src/).  It produces maximal
identifier and whitespace runs and single-character punctuation tokens, each
carrying its exact source text; the lexical-error path never fires on the
token shapes exercised here, so the model is total. -/
def tokenizeGo (cur : Option Token) (cs : List Char) : List Token :=
  match cs with
  | [] =>
    match cur with
    | none => []
    | some t => [t]
  | c :: rest =>
    match cur with
    | some t =>
      if (t.kind == SyntaxKind.IDENT && isIdentCont c)
          || (t.kind == SyntaxKind.WHITESPACE && c.isWhitespace) then
        tokenizeGo (some ⟨t.kind, t.text.push c⟩) rest
      else
        t ::
          (if isIdentStart c then
            tokenizeGo (some ⟨SyntaxKind.IDENT, String.mk [c]⟩) rest
          else if c.isWhitespace then
            tokenizeGo (some ⟨SyntaxKind.WHITESPACE, String.mk [c]⟩) rest
          else
            ⟨punct_kind c, String.mk [c]⟩ :: tokenizeGo none rest)
    | none =>
      if isIdentStart c then
        tokenizeGo (some ⟨SyntaxKind.IDENT, String.mk [c]⟩) rest
      else if c.isWhitespace then
        tokenizeGo (some ⟨SyntaxKind.WHITESPACE, String.mk [c]⟩) rest
      else
        ⟨punct_kind c, String.mk [c]⟩ :: tokenizeGo none rest

/-- Modelled from the spec: `ra_syntax::tokenize` on a whole string. -/
def tokenize (s : String) : List Token := tokenizeGo none s.toList

/-- `parse_pattern` from parsing.rs: tokenize, then scan for placeholders. -/
def parse_pattern (s : String) : Except String (List PatternElement) :=
  parse_tokens (tokenize s)

/-- `RawSearchPattern` from parsing.rs. -/
structure RawSearchPattern where
  tokens : List PatternElement
deriving DecidableEq

/-- `RawSearchPattern::as_rust_code`: render the pattern back to text with
each placeholder replaced by its stand-in name. -/
def RawSearchPattern.as_rust_code (raw : RawSearchPattern) : String :=
  raw.tokens.foldl
    (fun res t =>
      res ++
        match t with
        | PatternElement.token token => token.text
        | PatternElement.placeholder placeholder => placeholder.stand_in_name)
    ""

/-- `RawSearchPattern::placeholders_by_stand_in`: the `FxHashMap` is modelled
as an association list in insertion order (stand-in names are distinct for
distinct idents, so lookup semantics agree). -/
def RawSearchPattern.placeholders_by_stand_in (raw : RawSearchPattern) :
    List (String × Placeholder) :=
  raw.tokens.filterMap fun t =>
    match t with
    | PatternElement.placeholder placeholder =>
      some (placeholder.stand_in_name, placeholder)
    | _ => none

/-- Modelled from the spec: the five external grammar entry points consumed by
the pattern compiler (`ast::Expr::parse`, `ast::TypeRef::parse`,
`ast::ModuleItem::parse`, `ast::Path::parse`, `ast::Pat::parse` of
`ra_syntax`, which is not under src/).  Each takes text and returns an
optional syntax-tree root (`α` abstracts the tree type); theorems quantify
over this structure, so they hold for the real parsers. -/
structure GrammarParsers (α : Type) where
  expr : String → Option α
  type_ref : String → Option α
  item : String → Option α
  path : String → Option α
  pattern : String → Option α

/-- `SsrPattern` from lib.rs/parsing.rs: every successful grammar
interpretation of the stand-in-substituted text, tagged by kind. -/
structure SsrPattern (α : Type) where
  raw : RawSearchPattern
  expr : Option α
  type_ref : Option α
  item : Option α
  path : Option α
  pattern : Option α
  placeholders_by_stand_in : List (String × Placeholder)

/-- The `InvalidPatternError` message of `SsrPattern::from_str`. -/
def invalid_pattern_msg : String :=
  "Pattern is not a valid Rust expression, type, item, path or pattern"

/-- `SsrPattern::from_str` from parsing.rs, split at the token boundary:
given the token stream of the pattern text, run the placeholder scan, feed
the stand-in-substituted text to the five grammar entry points, keep every
successful parse, and fail only when all five fail. -/
def SsrPattern.from_tokens {α : Type} (G : GrammarParsers α) (toks : List Token) :
    Except String (SsrPattern α) :=
  match parse_tokens toks with
  | .error e => .error e
  | .ok elems =>
    let raw : RawSearchPattern := ⟨elems⟩
    let raw_str := raw.as_rust_code
    let res : SsrPattern α :=
      { raw := raw
        expr := G.expr raw_str
        type_ref := G.type_ref raw_str
        item := G.item raw_str
        path := G.path raw_str
        pattern := G.pattern raw_str
        placeholders_by_stand_in := raw.placeholders_by_stand_in }
    if res.expr.isNone && res.type_ref.isNone && res.item.isNone
        && res.path.isNone && res.pattern.isNone then
      .error invalid_pattern_msg
    else
      .ok res

/-- `SsrPattern::from_str` on a pattern string. -/
def SsrPattern.from_str {α : Type} (G : GrammarParsers α) (s : String) :
    Except String (SsrPattern α) :=
  SsrPattern.from_tokens G (tokenize s)

/-- `SsrTemplate` from parsing.rs. -/
structure SsrTemplate where
  tokens : List PatternElement
deriving DecidableEq

/-- `SsrTemplate::from_str` from parsing.rs: parse the tokens (whitespace
retained), validate the text with the search-pattern logic, keep the tokens. -/
def SsrTemplate.from_str {α : Type} (G : GrammarParsers α) (s : String) :
    Except String SsrTemplate :=
  match parse_pattern s with
  | .error e => .error e
  | .ok elems =>
    match SsrPattern.from_str G s with
    | .error _ =>
      .error "Replacement is not a valid Rust expression, type, item, path or pattern"
    | .ok _ => .ok ⟨elems⟩

/-- `SsrRule` from lib.rs. -/
structure SsrRule (α : Type) where
  pattern : SsrPattern α
  template : SsrTemplate

/-- The placeholder identifiers of a token sequence, in order. -/
def placeholder_idents (elems : List PatternElement) : List String :=
  elems.filterMap fun e =>
    match e with
    | PatternElement.placeholder p => some p.ident
    | _ => none

/-- `validate_rule` from parsing.rs: collect the pattern's placeholder names,
walk the template in order collecting `format!("${}", ident)` for each
undefined reference, and fail listing all of them joined by `", "`. -/
def validate_rule {α : Type} (rule : SsrRule α) : Except String Unit :=
  let defined_placeholders := placeholder_idents rule.pattern.raw.tokens
  let undefined := rule.template.tokens.filterMap fun e =>
    match e with
    | PatternElement.placeholder p =>
      if p.ident ∈ defined_placeholders then none else some ("$" ++ p.ident)
    | _ => none
  if undefined = [] then .ok ()
  else
    .error ("Replacement contains undefined placeholders: "
      ++ String.intercalate ", " undefined)

/-- Modelled from the spec: Rust `str::split("==>>")` — split into the pieces
between non-overlapping leftmost occurrences of the delimiter.  The scan
inspects four characters at a time, so it is structurally recursive. -/
def split_delim_go (acc : List Char) : List Char → List (List Char)
  | '=' :: '=' :: '>' :: '>' :: rest => acc.reverse :: split_delim_go [] rest
  | c :: rest => split_delim_go (c :: acc) rest
  | [] => [acc.reverse]

/-- `query.split("==>>")` as a list of pieces. -/
def split_delim (s : List Char) : List (List Char) := split_delim_go [] s

/-- The number of non-overlapping occurrences of `==>>`, scanning leftmost
first — the delimiter count the claims speak about. -/
def count_delims : List Char → Nat
  | '=' :: '=' :: '>' :: '>' :: rest => count_delims rest + 1
  | _ :: rest => count_delims rest
  | [] => 0

/-- Modelled from the spec: Rust `str::trim` — strip leading and trailing
whitespace characters. -/
def trim_chars (s : List Char) : List Char :=
  ((s.dropWhile Char.isWhitespace).reverse.dropWhile Char.isWhitespace).reverse

/-- The part of `SsrRule::from_str` after the delimiter split: parse the
pattern, parse the template, cross-validate. -/
def rule_from_parts {α : Type} (G : GrammarParsers α)
    (pattern_str template_str : String) : Except String (SsrRule α) :=
  match SsrPattern.from_str G pattern_str with
  | .error e => .error e
  | .ok pat =>
    match SsrTemplate.from_str G template_str with
    | .error e => .error e
    | .ok tem =>
      let rule : SsrRule α := ⟨pat, tem⟩
      match validate_rule rule with
      | .error e => .error e
      | .ok _ => .ok rule

/-- `SsrRule::from_str` from parsing.rs: split on `==>>`; one piece means the
delimiter is missing, three or more pieces mean it occurred more than once;
with exactly two pieces both halves are trimmed and parsed, then the rule is
validated. -/
def SsrRule.from_str {α : Type} (G : GrammarParsers α) (query : String) :
    Except String (SsrRule α) :=
  match split_delim query.toList with
  | [_] => .error "Cannot find delemiter `==>>`"
  | [p, t] => rule_from_parts G (trim_chars p).asString (trim_chars t).asString
  | _ => .error "More than one delimiter found"

/-- `TextRange` of the `text_size` crate, with `Nat` offsets.  The `end`
accessor is called `stop` because `end` is a Lean keyword. -/
structure TextRange where
  start : Nat
  stop : Nat
deriving DecidableEq

/-- `TextRange::checked_sub`: shift the range down by `off`, `none` on
underflow of either endpoint. -/
def TextRange.checked_sub (r : TextRange) (off : Nat) : Option TextRange :=
  if off ≤ r.start ∧ off ≤ r.stop then some ⟨r.start - off, r.stop - off⟩
  else none

/-- `Indel` of `ra_text_edit` (a range to delete plus text to insert). -/
structure Indel where
  delete : TextRange
  insert : String
deriving DecidableEq

/-- Modelled from the spec: `TextEdit::apply` of `ra_text_edit` (the crate is
not under src/) — apply an ordered, non-overlapping list of indels to a text;
`pos` is the absolute offset of the head of the remaining text. -/
def apply_indels (pos : Nat) : List Indel → List Char → List Char
  | [], s => s
  | i :: rest, s =>
    s.take (i.delete.start - pos) ++ i.insert.toList
      ++ apply_indels i.delete.stop rest (s.drop (i.delete.stop - pos))

/-- `edit.apply(&mut matched_text)`. -/
def apply_edit (edit : List Indel) (text : String) : String :=
  (apply_indels 0 edit text.toList).asString

/-- Rust `&str[a..b]` character slicing (total in the model; the bounds are
established by `checked_sub` before it is used). -/
def str_slice (s : String) (a b : Nat) : String :=
  ((s.toList.drop a).take (b - a)).asString

mutual
/-- `Match` of matching.rs as consumed by replacing.rs: its absolute range,
the matched node's absolute start offset and text (the only two things
`render_replace` reads from `matched_node`), the replacement template tokens,
the placeholder bindings (`FxHashMap<Var, PlaceholderValue>` modelled as an
association list keyed by the `Var` ident string), and the texts of the
ignored comments. -/
inductive Match where
  | mk (range : TextRange) (node_start : Nat) (node_text : String)
      (template : List PatternElement)
      (placeholder_values : List (String × PlaceholderValue))
      (ignored_comments : List String) : Match

/-- `PlaceholderValue` of matching.rs: the absolute range of the captured
text (`placeholder_value.range.range`), the optional bound node (modelled by
its text, the only thing read from it), and the nested matches found inside
the captured text. -/
inductive PlaceholderValue where
  | mk (range : TextRange) (node : Option String)
      (inner_matches : List Match) : PlaceholderValue
end

def Match.range : Match → TextRange
  | .mk r _ _ _ _ _ => r

def Match.node_start : Match → Nat
  | .mk _ ns _ _ _ _ => ns

def Match.node_text : Match → String
  | .mk _ _ nt _ _ _ => nt

def Match.template : Match → List PatternElement
  | .mk _ _ _ tpl _ _ => tpl

def Match.placeholder_values : Match → List (String × PlaceholderValue)
  | .mk _ _ _ _ pvs _ => pvs

def Match.ignored_comments : Match → List String
  | .mk _ _ _ _ _ cs => cs

def PlaceholderValue.range : PlaceholderValue → TextRange
  | .mk r _ _ => r

def PlaceholderValue.node : PlaceholderValue → Option String
  | .mk _ n _ => n

def PlaceholderValue.inner_matches : PlaceholderValue → List Match
  | .mk _ _ ms => ms

/-- `match_info.placeholder_values.get(&Var(p.ident.to_string()))`. -/
def find_placeholder_value (k : String) :
    List (String × PlaceholderValue) → Option PlaceholderValue
  | [] => none
  | (k2, v) :: rest => if k = k2 then some v else find_placeholder_value k rest

/-- The two internal-consistency aborts of replacing.rs: `.unwrap()` on a
failed `checked_sub` (range-subtraction underflow) and the
`panic!("Internal error: replacement referenced unknown placeholder ...")`
on a failed placeholder lookup. -/
inductive RErr where
  | underflow
  | unknownPlaceholder
deriving DecidableEq

theorem sizeOf_find_placeholder_value {k : String} {pv : PlaceholderValue}
    {pvs : List (String × PlaceholderValue)}
    (h : find_placeholder_value k pvs = some pv) : sizeOf pv < sizeOf pvs := by
  induction pvs with
  | nil => simp [find_placeholder_value] at h
  | cons hd rest ih =>
    obtain ⟨k2, v⟩ := hd
    simp only [find_placeholder_value] at h
    split at h
    · cases h
      simp only [List.cons.sizeOf_spec, Prod.mk.sizeOf_spec]
      omega
    · have := ih h
      simp only [List.cons.sizeOf_spec]
      omega

theorem sizeOf_inner_matches (pv : PlaceholderValue) :
    sizeOf pv.inner_matches < sizeOf pv := by
  cases pv with
  | mk r n ms =>
    simp only [PlaceholderValue.inner_matches, PlaceholderValue.mk.sizeOf_spec]
    omega

mutual
/-- `matches_to_edit_at_offset` from replacing.rs: for each match, shift its
absolute range into the current frame (`.unwrap()` modelled as the
`underflow` abort) and pair it with the rendered replacement; the
`TextEditBuilder` accumulates the indels in iteration order. -/
def matches_to_edit_at_offset (ms : List Match) (relative_start : Nat) :
    Except RErr (List Indel) :=
  match ms with
  | [] => .ok []
  | m :: rest =>
    match TextRange.checked_sub m.range relative_start with
    | none => .error .underflow
    | some r =>
      match render_replace m with
      | .error e => .error e
      | .ok repl =>
        match matches_to_edit_at_offset rest relative_start with
        | .error e => .error e
        | .ok tail => .ok (⟨r, repl⟩ :: tail)
termination_by sizeOf ms
decreasing_by
  · simp only [List.cons.sizeOf_spec]; omega
  · simp only [List.cons.sizeOf_spec]; omega

/-- `render_replace` from replacing.rs: emit the template elements in order,
then append the ignored comments verbatim. -/
def render_replace : Match → Except RErr String
  | .mk _range ns ntext template pvs comments =>
    match render_elements pvs ns ntext template with
    | .error e => .error e
    | .ok out => .ok (out ++ String.join comments)
termination_by m => sizeOf m
decreasing_by
  simp only [Match.mk.sizeOf_spec]; omega

/-- The template-walking loop of `render_replace`: a literal token emits its
text; a placeholder is looked up (a miss is the `panic!` abort), its captured
text is the bound node's text or a slice of the matched node's text shifted
by the match's start (underflow aborts), the nested matches are rendered with
`relative_start` equal to the placeholder value's absolute start, and the
resulting edit is spliced into the captured text before it is emitted. -/
def render_elements (pvs : List (String × PlaceholderValue)) (ns : Nat)
    (ntext : String) (elems : List PatternElement) : Except RErr String :=
  match elems with
  | [] => .ok ""
  | PatternElement.token t :: rest =>
    match render_elements pvs ns ntext rest with
    | .error e => .error e
    | .ok out => .ok (t.text ++ out)
  | PatternElement.placeholder p :: rest =>
    match hf : find_placeholder_value p.ident pvs with
    | none => .error .unknownPlaceholder
    | some pv =>
      match
        (match pv.node with
         | some node_text => Except.ok node_text
         | none =>
           match TextRange.checked_sub pv.range ns with
           | none => Except.error RErr.underflow
           | some rel => Except.ok (str_slice ntext rel.start rel.stop)) with
      | .error e => .error e
      | .ok matched_text =>
        match matches_to_edit_at_offset pv.inner_matches pv.range.start with
        | .error e => .error e
        | .ok edit =>
          match render_elements pvs ns ntext rest with
          | .error e => .error e
          | .ok out => .ok (apply_edit edit matched_text ++ out)
termination_by sizeOf pvs + sizeOf elems
decreasing_by
  · simp only [List.cons.sizeOf_spec]; omega
  · have h1 := sizeOf_find_placeholder_value hf
    have h2 := sizeOf_inner_matches pv
    omega
  · simp only [List.cons.sizeOf_spec]; omega
end

/-- `matches_to_edit` from replacing.rs (top level, offset 0). -/
def matches_to_edit (ms : List Match) : Except RErr (List Indel) :=
  matches_to_edit_at_offset ms 0

mutual
/-- All ranges of a match tree lie within their enclosing coordinate frame:
each match of a frame starting at `rs` has its range at or after `rs`. -/
def wf_frame (rs : Nat) : List Match → Bool
  | [] => true
  | m :: rest => wf_match_entry rs m && wf_frame rs rest

/-- A single match is within its frame and its placeholder values are within
the match's own frame. -/
def wf_match_entry (rs : Nat) : Match → Bool
  | .mk range ns _ _ pvs _ =>
    decide (rs ≤ range.start) && decide (rs ≤ range.stop) && wf_values ns pvs

/-- All placeholder values of a match (node-less ones must start at or after
the match's node start; nested matches lie within the value's range). -/
def wf_values (ns : Nat) : List (String × PlaceholderValue) → Bool
  | [] => true
  | (_, pv) :: rest => wf_value_entry ns pv && wf_values ns rest

/-- One placeholder value is within its match's frame. -/
def wf_value_entry (ns : Nat) : PlaceholderValue → Bool
  | .mk range node inner =>
    (match node with
     | some _ => true
     | none => decide (ns ≤ range.start) && decide (ns ≤ range.stop))
    && wf_frame range.start inner
end

/-- A node-backed placeholder value whose range starts before its match's
start: the claim says the composer aborts on it. -/
def c9_pv : PlaceholderValue := PlaceholderValue.mk ⟨0, 1⟩ (some "t") []

/-- The match binding `c9_pv` under placeholder `a`, with node start 5. -/
def c9_match : Match :=
  Match.mk ⟨5, 6⟩ 5 "u" [PatternElement.placeholder (Placeholder.new "a")]
    [("a", c9_pv)] []

/-- The `Token` elements of a pattern-element sequence, in order. -/
def token_elements (elems : List PatternElement) : List Token :=
  elems.filterMap fun e =>
    match e with
    | PatternElement.token t => some t
    | _ => none

/-- The tokens of a token sequence that the scan passes through verbatim:
every token except each `$` and the token immediately following it. -/
def non_sigil_kept : List Token → List Token
  | [] => []
  | t :: rest =>
    if t.kind = SyntaxKind.DOLLAR then
      match rest with
      | [] => []
      | _ :: rest2 => non_sigil_kept rest2
    else t :: non_sigil_kept rest

/-- The texts of the tokens immediately following each `$` token. -/
def sigil_idents : List Token → List String
  | [] => []
  | t :: rest =>
    if t.kind = SyntaxKind.DOLLAR then
      match rest with
      | [] => []
      | t2 :: rest2 => t2.text :: sigil_idents rest2
    else sigil_idents rest

/-- The concatenation of the literal texts of the `Token` elements of a
template, in order. -/
def concat_token_text : List PatternElement → String
  | [] => ""
  | PatternElement.token t :: rest => t.text ++ concat_token_text rest
  | PatternElement.placeholder _ :: rest => concat_token_text rest

/-- A placeholder-free match carrying an ignored comment: the claim as
stated says rendering returns the template's literal token text unchanged. -/
def c4_match : Match :=
  Match.mk ⟨0, 1⟩ 0 "x" [PatternElement.token (Token.mk SyntaxKind.IDENT "x")]
    [] ["/* comment */"]

/-- The undefined-placeholder report the claim describes: the template's
placeholder identifiers not defined by the pattern, in template order, each
prefixed with `$`. -/
def undefined_placeholder_list {α : Type} (rule : SsrRule α) : List String :=
  ((placeholder_idents rule.template.tokens).filter
      (fun x => x ∉ placeholder_idents rule.pattern.raw.tokens)).map
    (fun x => "$" ++ x)

/-- The pattern element sequence the claim expects for `foo($a, $b)`. -/
def happy_pattern_tokens : List PatternElement :=
  [PatternElement.token (Token.mk SyntaxKind.IDENT "foo"),
   PatternElement.token (Token.mk SyntaxKind.L_PAREN "("),
   PatternElement.placeholder (Placeholder.new "a"),
   PatternElement.token (Token.mk SyntaxKind.COMMA ","),
   PatternElement.token (Token.mk SyntaxKind.WHITESPACE " "),
   PatternElement.placeholder (Placeholder.new "b"),
   PatternElement.token (Token.mk SyntaxKind.R_PAREN ")")]

/-- The template element sequence the claim expects for `bar($b, $a)`. -/
def happy_template_tokens : List PatternElement :=
  [PatternElement.token (Token.mk SyntaxKind.IDENT "bar"),
   PatternElement.token (Token.mk SyntaxKind.L_PAREN "("),
   PatternElement.placeholder (Placeholder.new "b"),
   PatternElement.token (Token.mk SyntaxKind.COMMA ","),
   PatternElement.token (Token.mk SyntaxKind.WHITESPACE " "),
   PatternElement.placeholder (Placeholder.new "a"),
   PatternElement.token (Token.mk SyntaxKind.R_PAREN ")")]

/-! ## Lemmas about the delimiter split -/

theorem split_delim_go_length : ∀ (acc s : List Char),
    (split_delim_go acc s).length = count_delims s + 1 := by
  intro acc s
  induction acc, s using split_delim_go.induct with
  | case1 acc rest ih => simp [split_delim_go, count_delims, ih]
  | case2 acc c rest h ih => simp [split_delim_go, count_delims, ih]
  | case3 acc => simp [split_delim_go, count_delims]

theorem split_delim_go_singleton : ∀ (acc s x : List Char),
    split_delim_go acc s = [x] → x = acc.reverse ++ s := by
  intro acc s
  induction acc, s using split_delim_go.induct with
  | case1 acc rest ih =>
    intro x hx
    simp only [split_delim_go, List.cons.injEq] at hx
    have := split_delim_go_length [] rest
    rw [hx.2] at this
    simp at this
  | case2 acc c rest h ih =>
    intro x hx
    rw [split_delim_go.eq_2 _ _ _ h] at hx
    have := ih x hx
    simpa using this
  | case3 acc =>
    intro x hx
    simp only [split_delim_go, List.cons.injEq] at hx
    simp [hx.1]

theorem split_delim_go_two : ∀ (acc s p t : List Char),
    split_delim_go acc s = [p, t] →
      acc.reverse ++ s = p ++ '=' :: '=' :: '>' :: '>' :: t := by
  intro acc s
  induction acc, s using split_delim_go.induct with
  | case1 acc rest ih =>
    intro p t hx
    simp only [split_delim_go, List.cons.injEq] at hx
    have ht := split_delim_go_singleton [] rest t hx.2
    simp only [List.reverse_nil, List.nil_append] at ht
    rw [← hx.1, ht]
  | case2 acc c rest h ih =>
    intro p t hx
    rw [split_delim_go.eq_2 _ _ _ h] at hx
    have := ih p t hx
    simpa using this
  | case3 acc =>
    intro p t hx
    rw [split_delim_go.eq_3] at hx
    simp at hx

/-! ## Computed equations for the renderer -/

theorem string_empty_append (s : String) : "" ++ s = s := by
  cases s with
  | mk data => rfl

theorem string_append_empty (s : String) : s ++ "" = s := by
  cases s with
  | mk data =>
    show String.mk (data ++ []) = String.mk data
    rw [List.append_nil]

theorem string_append_assoc (a b c : String) : (a ++ b) ++ c = a ++ (b ++ c) := by
  cases a with
  | mk la =>
    cases b with
    | mk lb =>
      cases c with
      | mk lc =>
        show String.mk ((la ++ lb) ++ lc) = String.mk (la ++ (lb ++ lc))
        rw [List.append_assoc]

theorem m2e_nil (rs : Nat) : matches_to_edit_at_offset [] rs = .ok [] := by
  simp [matches_to_edit_at_offset]

theorem m2e_cons (m : Match) (rest : List Match) (rs : Nat) :
    matches_to_edit_at_offset (m :: rest) rs =
      match TextRange.checked_sub m.range rs with
      | none => .error .underflow
      | some r =>
        match render_replace m with
        | .error e => .error e
        | .ok repl =>
          match matches_to_edit_at_offset rest rs with
          | .error e => .error e
          | .ok tail => .ok (⟨r, repl⟩ :: tail) := by
  simp only [matches_to_edit_at_offset]

theorem render_replace_mk (range : TextRange) (ns : Nat) (ntext : String)
    (template : List PatternElement) (pvs : List (String × PlaceholderValue))
    (comments : List String) :
    render_replace (.mk range ns ntext template pvs comments) =
      match render_elements pvs ns ntext template with
      | .error e => .error e
      | .ok out => .ok (out ++ String.join comments) := by
  simp only [render_replace]

theorem render_elements_nil (pvs : List (String × PlaceholderValue)) (ns : Nat)
    (ntext : String) : render_elements pvs ns ntext [] = .ok "" := by
  simp [render_elements]

theorem render_elements_token (pvs : List (String × PlaceholderValue)) (ns : Nat)
    (ntext : String) (t : Token) (rest : List PatternElement) :
    render_elements pvs ns ntext (PatternElement.token t :: rest) =
      match render_elements pvs ns ntext rest with
      | .error e => .error e
      | .ok out => .ok (t.text ++ out) := by
  simp only [render_elements]

theorem render_elements_ph_miss (pvs : List (String × PlaceholderValue)) (ns : Nat)
    (ntext : String) (p : Placeholder) (rest : List PatternElement)
    (hf : find_placeholder_value p.ident pvs = none) :
    render_elements pvs ns ntext (PatternElement.placeholder p :: rest)
      = .error .unknownPlaceholder := by
  simp only [render_elements]
  split
  · rfl
  · rename_i pv hf2
    rw [hf] at hf2
    exact absurd hf2 (by simp)

theorem render_elements_ph (pvs : List (String × PlaceholderValue)) (ns : Nat)
    (ntext : String) (p : Placeholder) (pv : PlaceholderValue)
    (rest : List PatternElement)
    (hf : find_placeholder_value p.ident pvs = some pv) :
    render_elements pvs ns ntext (PatternElement.placeholder p :: rest) =
      match
        (match pv.node with
         | some node_text => Except.ok node_text
         | none =>
           match TextRange.checked_sub pv.range ns with
           | none => Except.error RErr.underflow
           | some rel => Except.ok (str_slice ntext rel.start rel.stop)) with
      | .error e => .error e
      | .ok matched_text =>
        match matches_to_edit_at_offset pv.inner_matches pv.range.start with
        | .error e => .error e
        | .ok edit =>
          match render_elements pvs ns ntext rest with
          | .error e => .error e
          | .ok out => .ok (apply_edit edit matched_text ++ out) := by
  simp only [render_elements]
  split
  · rename_i hf2
    rw [hf] at hf2
    exact absurd hf2 (by simp)
  · rename_i pv2 hf2
    rw [hf] at hf2
    injection hf2 with h
    subst h
    rfl

theorem render_elements_append (pvs : List (String × PlaceholderValue)) (ns : Nat)
    (ntext : String) : ∀ l1 l2 : List PatternElement,
    render_elements pvs ns ntext (l1 ++ l2) =
      match render_elements pvs ns ntext l1 with
      | .error e => .error e
      | .ok o1 =>
        match render_elements pvs ns ntext l2 with
        | .error e => .error e
        | .ok o2 => .ok (o1 ++ o2) := by
  intro l1 l2
  induction l1 with
  | nil =>
    rw [List.nil_append, render_elements_nil]
    cases h2 : render_elements pvs ns ntext l2 <;>
      simp [string_empty_append]
  | cons e rest ih =>
    match e with
    | PatternElement.token t =>
      rw [List.cons_append, render_elements_token, render_elements_token, ih]
      cases h1 : render_elements pvs ns ntext rest <;>
        cases h2 : render_elements pvs ns ntext l2 <;>
          simp [string_append_assoc]
    | PatternElement.placeholder p =>
      cases hf : find_placeholder_value p.ident pvs with
      | none =>
        rw [List.cons_append, render_elements_ph_miss pvs ns ntext p _ hf,
          render_elements_ph_miss pvs ns ntext p _ hf]
      | some pv =>
        rw [List.cons_append, render_elements_ph pvs ns ntext p pv _ hf,
          render_elements_ph pvs ns ntext p pv _ hf, ih]
        cases hn : (match pv.node with
            | some node_text => Except.ok node_text
            | none =>
              match TextRange.checked_sub pv.range ns with
              | none => Except.error RErr.underflow
              | some rel =>
                Except.ok (str_slice ntext rel.start rel.stop)) with
        | error e => simp
        | ok mt =>
          cases he : matches_to_edit_at_offset pv.inner_matches pv.range.start with
          | error e => simp
          | ok edit =>
            cases h1 : render_elements pvs ns ntext rest <;>
              cases h2 : render_elements pvs ns ntext l2 <;>
                simp [string_append_assoc]

/-! ## C1: nested matches are spliced into the captured text exactly once -/

/-- C1: when a template placeholder `P` is bound to captured text `T` (a
bound node) and carries one inner match `M` starting `r` past `P`'s absolute
start, the outer render splices `M`'s rendering into `T` at local position
`r` exactly once — the nested edit is computed relative to `P`'s absolute
start, so the outer match's absolute offset never shifts it again. -/
theorem nested_render_once (m M : Match) (p : Placeholder)
    (pv : PlaceholderValue) (T S s1 s2 : String) (r len : Nat)
    (pre post : List PatternElement)
    (htpl : m.template = pre ++ PatternElement.placeholder p :: post)
    (hfind : find_placeholder_value p.ident m.placeholder_values = some pv)
    (hnode : pv.node = some T)
    (hinner : pv.inner_matches = [M])
    (hrange : M.range = ⟨pv.range.start + r, pv.range.start + r + len⟩)
    (hM : render_replace M = .ok S)
    (hpre : render_elements m.placeholder_values m.node_start m.node_text pre
      = .ok s1)
    (hpost : render_elements m.placeholder_values m.node_start m.node_text post
      = .ok s2) :
    render_replace m = .ok (s1
      ++ (T.toList.take r ++ S.toList ++ T.toList.drop (r + len)).asString
      ++ s2 ++ String.join m.ignored_comments) := by
  cases m with
  | mk range ns ntext template pvs comments =>
    simp only [Match.template] at htpl
    simp only [Match.placeholder_values, Match.node_start, Match.node_text]
      at hfind hpre hpost
    simp only [Match.ignored_comments]
    subst htpl
    have hedit : matches_to_edit_at_offset pv.inner_matches pv.range.start
        = .ok [⟨⟨r, r + len⟩, S⟩] := by
      rw [hinner, m2e_cons, hrange]
      rw [show TextRange.checked_sub
          ⟨pv.range.start + r, pv.range.start + r + len⟩ pv.range.start
          = some ⟨r, r + len⟩ by
        simp [TextRange.checked_sub, Nat.le_add_right, Nat.add_sub_cancel_left,
          Nat.add_assoc]]
      rw [hM, m2e_nil]
    have hsplice : apply_edit [⟨⟨r, r + len⟩, S⟩] T
        = (T.toList.take r ++ S.toList ++ T.toList.drop (r + len)).asString := by
      simp [apply_edit, apply_indels]
    have hph : render_elements pvs ns ntext
        (PatternElement.placeholder p :: post)
        = .ok ((T.toList.take r ++ S.toList ++ T.toList.drop (r + len)).asString
            ++ s2) := by
      rw [render_elements_ph pvs ns ntext p pv post hfind, hnode, hedit, hpost]
      simp [hsplice]
    rw [render_replace_mk, render_elements_append pvs ns ntext pre _, hpre, hph]
    simp [string_append_assoc]

/-- C1 witness: outer frame at absolute offset 10, captured text `abcdefg`,
inner match at relative offset 2 of length 3 rendering to `Z`. -/
theorem nested_render_once_witness :
    render_replace (Match.mk ⟨10, 17⟩ 10 "abcdefg"
        [PatternElement.token (Token.mk SyntaxKind.L_PAREN "("),
         PatternElement.placeholder (Placeholder.new "a"),
         PatternElement.token (Token.mk SyntaxKind.R_PAREN ")")]
        [("a", PlaceholderValue.mk ⟨10, 17⟩ (some "abcdefg")
          [Match.mk ⟨12, 15⟩ 12 "cde"
            [PatternElement.token (Token.mk SyntaxKind.IDENT "Z")] [] []])]
        [])
      = .ok "(abZfg)" := by
  have := nested_render_once
    (Match.mk ⟨10, 17⟩ 10 "abcdefg"
      [PatternElement.token (Token.mk SyntaxKind.L_PAREN "("),
       PatternElement.placeholder (Placeholder.new "a"),
       PatternElement.token (Token.mk SyntaxKind.R_PAREN ")")]
      [("a", PlaceholderValue.mk ⟨10, 17⟩ (some "abcdefg")
        [Match.mk ⟨12, 15⟩ 12 "cde"
          [PatternElement.token (Token.mk SyntaxKind.IDENT "Z")] [] []])]
      [])
    (Match.mk ⟨12, 15⟩ 12 "cde"
      [PatternElement.token (Token.mk SyntaxKind.IDENT "Z")] [] [])
    (Placeholder.new "a")
    (PlaceholderValue.mk ⟨10, 17⟩ (some "abcdefg")
      [Match.mk ⟨12, 15⟩ 12 "cde"
        [PatternElement.token (Token.mk SyntaxKind.IDENT "Z")] [] []])
    "abcdefg" "Z" "(" ")" 2 3
    [PatternElement.token (Token.mk SyntaxKind.L_PAREN "(")]
    [PatternElement.token (Token.mk SyntaxKind.R_PAREN ")")]
    rfl rfl rfl rfl (by decide)
    (by
      rw [render_replace_mk, render_elements_token, render_elements_nil]
      simp [string_append_empty, String.join])
    (by
      rw [render_elements_token, render_elements_nil]
      simp [string_append_empty])
    (by
      rw [render_elements_token, render_elements_nil]
      simp [string_append_empty])
  rw [this]
  simp only [Except.ok.injEq]
  decide

/-! ## C9: underflow aborts and their unreachability on well-formed input -/

theorem wf_frame_nil (rs : Nat) : wf_frame rs [] = true := by
  simp [wf_frame]

theorem wf_frame_cons (rs : Nat) (m : Match) (rest : List Match) :
    wf_frame rs (m :: rest) = (wf_match_entry rs m && wf_frame rs rest) := by
  simp [wf_frame]

theorem wf_match_entry_eq (rs : Nat) (range : TextRange) (ns : Nat)
    (ntext : String) (template : List PatternElement)
    (pvs : List (String × PlaceholderValue)) (comments : List String) :
    wf_match_entry rs (.mk range ns ntext template pvs comments)
      = (decide (rs ≤ range.start) && decide (rs ≤ range.stop)
          && wf_values ns pvs) := by
  simp [wf_match_entry]

theorem wf_values_nil (ns : Nat) : wf_values ns [] = true := by
  simp [wf_values]

theorem wf_values_cons (ns : Nat) (k : String) (pv : PlaceholderValue)
    (rest : List (String × PlaceholderValue)) :
    wf_values ns ((k, pv) :: rest)
      = (wf_value_entry ns pv && wf_values ns rest) := by
  simp [wf_values]

theorem wf_value_entry_eq (ns : Nat) (prange : TextRange)
    (pnode : Option String) (pinner : List Match) :
    wf_value_entry ns (.mk prange pnode pinner)
      = ((match pnode with
          | some _ => true
          | none => decide (ns ≤ prange.start) && decide (ns ≤ prange.stop))
        && wf_frame prange.start pinner) := by
  simp [wf_value_entry]

theorem find_placeholder_value_mem {k : String} {pv : PlaceholderValue}
    {pvs : List (String × PlaceholderValue)}
    (h : find_placeholder_value k pvs = some pv) : ∃ k2, (k2, pv) ∈ pvs := by
  induction pvs with
  | nil => simp [find_placeholder_value] at h
  | cons hd rest ih =>
    obtain ⟨k2, v⟩ := hd
    simp only [find_placeholder_value] at h
    split at h
    · injection h with h2
      exact ⟨k2, by rw [h2]; exact List.mem_cons_self _ _⟩
    · obtain ⟨k3, hk3⟩ := ih h
      exact ⟨k3, List.mem_cons_of_mem _ hk3⟩

theorem wf_values_mem {ns : Nat} {pvs : List (String × PlaceholderValue)}
    (h : wf_values ns pvs = true) {k : String} {pv : PlaceholderValue}
    (hmem : (k, pv) ∈ pvs) : wf_value_entry ns pv = true := by
  induction pvs with
  | nil => simp at hmem
  | cons hd rest ih =>
    obtain ⟨k2, v⟩ := hd
    rw [wf_values_cons] at h
    simp only [Bool.and_eq_true] at h
    rcases List.mem_cons.mp hmem with heq | hmem2
    · injection heq with h1 h2
      rw [h2]
      exact h.1
    · exact ih h.2 hmem2

theorem wf_match_entry_bounds {rs : Nat} {m : Match}
    (h : wf_match_entry rs m = true) :
    rs ≤ m.range.start ∧ rs ≤ m.range.stop
      ∧ wf_values m.node_start m.placeholder_values = true := by
  cases m with
  | mk range ns ntext template pvs comments =>
    rw [wf_match_entry_eq] at h
    simp only [Bool.and_eq_true, decide_eq_true_eq] at h
    exact ⟨h.1.1, h.1.2, h.2⟩

mutual
/-- On a well-formed frame the range subtraction of the edit composer never
underflows. -/
theorem no_underflow_frame : ∀ (rs : Nat) (ms : List Match),
    wf_frame rs ms = true →
    matches_to_edit_at_offset ms rs ≠ .error RErr.underflow
  | rs, [], h => by
    rw [m2e_nil]
    simp
  | rs, m :: rest, h => by
    rw [wf_frame_cons] at h
    simp only [Bool.and_eq_true] at h
    obtain ⟨hm, hfr⟩ := h
    obtain ⟨hb1, hb2, hv⟩ := wf_match_entry_bounds hm
    rw [m2e_cons]
    rw [show TextRange.checked_sub m.range rs
        = some ⟨m.range.start - rs, m.range.stop - rs⟩ by
      simp [TextRange.checked_sub, hb1, hb2]]
    have hrr := no_underflow_render m hv
    cases hr : render_replace m with
    | error e =>
      rw [hr] at hrr
      intro hcontra
      injection hcontra with h2
      rw [h2] at hrr
      exact hrr rfl
    | ok repl =>
      have htail := no_underflow_frame rs rest hfr
      cases htl : matches_to_edit_at_offset rest rs with
      | error e =>
        rw [htl] at htail
        intro hcontra
        injection hcontra with h2
        rw [h2] at htail
        exact htail rfl
      | ok tail => simp
termination_by rs ms => sizeOf ms
decreasing_by
  · simp only [List.cons.sizeOf_spec]; omega
  · simp only [List.cons.sizeOf_spec]; omega

/-- On a match whose placeholder values are well-formed, rendering never
aborts through range-subtraction underflow. -/
theorem no_underflow_render : ∀ (m : Match),
    wf_values m.node_start m.placeholder_values = true →
    render_replace m ≠ .error RErr.underflow
  | .mk range ns ntext template pvs comments, h => by
    simp only [Match.node_start, Match.placeholder_values] at h
    rw [render_replace_mk]
    have he := no_underflow_elements pvs ns ntext template h
    cases hr : render_elements pvs ns ntext template with
    | error e =>
      rw [hr] at he
      intro hcontra
      injection hcontra with h2
      rw [h2] at he
      exact he rfl
    | ok out => simp
termination_by m => sizeOf m
decreasing_by
  simp only [Match.mk.sizeOf_spec]
  omega

/-- Template walking with well-formed placeholder values never aborts
through range-subtraction underflow. -/
theorem no_underflow_elements : ∀ (pvs : List (String × PlaceholderValue))
    (ns : Nat) (ntext : String) (elems : List PatternElement),
    wf_values ns pvs = true →
    render_elements pvs ns ntext elems ≠ .error RErr.underflow
  | pvs, ns, ntext, [], h => by
    rw [render_elements_nil]
    simp
  | pvs, ns, ntext, PatternElement.token t :: rest, h => by
    rw [render_elements_token]
    have hrest := no_underflow_elements pvs ns ntext rest h
    cases hr : render_elements pvs ns ntext rest with
    | error e =>
      rw [hr] at hrest
      intro hcontra
      injection hcontra with h2
      rw [h2] at hrest
      exact hrest rfl
    | ok out => simp
  | pvs, ns, ntext, PatternElement.placeholder p :: rest, h => by
    cases hf : find_placeholder_value p.ident pvs with
    | none =>
      rw [render_elements_ph_miss pvs ns ntext p rest hf]
      simp
    | some pv =>
      obtain ⟨k2, hmem⟩ := find_placeholder_value_mem hf
      have hwf := wf_values_mem h hmem
      cases pv with
      | mk prange pnode pinner =>
        rw [render_elements_ph pvs ns ntext p _ rest hf]
        rw [wf_value_entry_eq] at hwf
        simp only [Bool.and_eq_true] at hwf
        simp only [PlaceholderValue.node, PlaceholderValue.range,
          PlaceholderValue.inner_matches]
        have hinner := no_underflow_frame prange.start pinner hwf.2
        have hrest := no_underflow_elements pvs ns ntext rest h
        cases pnode with
        | some ntxt =>
          cases he : matches_to_edit_at_offset pinner prange.start with
          | error e =>
            rw [he] at hinner
            simp only [he]
            intro hcontra
            injection hcontra with h2
            rw [h2] at hinner
            exact hinner rfl
          | ok edit =>
            simp only [he]
            cases hr : render_elements pvs ns ntext rest with
            | error e =>
              rw [hr] at hrest
              intro hcontra
              injection hcontra with h2
              rw [h2] at hrest
              exact hrest rfl
            | ok out => simp
        | none =>
          simp only [Bool.and_eq_true, decide_eq_true_eq] at hwf
          rw [show TextRange.checked_sub prange ns
              = some ⟨prange.start - ns, prange.stop - ns⟩ by
            simp [TextRange.checked_sub, hwf.1.1, hwf.1.2]]
          cases he : matches_to_edit_at_offset pinner prange.start with
          | error e =>
            rw [he] at hinner
            simp only [he]
            intro hcontra
            injection hcontra with h2
            rw [h2] at hinner
            exact hinner rfl
          | ok edit =>
            simp only [he]
            cases hr : render_elements pvs ns ntext rest with
            | error e =>
              rw [hr] at hrest
              intro hcontra
              injection hcontra with h2
              rw [h2] at hrest
              exact hrest rfl
            | ok out => simp
termination_by pvs _ _ elems => sizeOf pvs + sizeOf elems
decreasing_by
  all_goals
    first
    | (simp only [List.cons.sizeOf_spec]; omega)
    | (have hx := List.sizeOf_lt_of_mem hmem
       simp only [List.cons.sizeOf_spec, Prod.mk.sizeOf_spec,
         PlaceholderValue.mk.sizeOf_spec] at hx ⊢
       omega)
end

/-- If the composer returns an edit list, every match of the frame started
at or after the frame's offset (so the underflow abort fired otherwise). -/
theorem m2e_ok_bounds : ∀ (ms : List Match) (rs : Nat) (indels : List Indel),
    matches_to_edit_at_offset ms rs = .ok indels →
    ∀ m ∈ ms, rs ≤ m.range.start ∧ rs ≤ m.range.stop := by
  intro ms
  induction ms with
  | nil => simp
  | cons m rest ih =>
    intro rs indels hok m2 hmem
    rw [m2e_cons] at hok
    cases hcs : TextRange.checked_sub m.range rs with
    | none => rw [hcs] at hok; simp at hok
    | some r =>
      rw [hcs] at hok
      simp only [TextRange.checked_sub] at hcs
      split at hcs
      · rename_i hc
        cases hr : render_replace m with
        | error e => rw [hr] at hok; simp at hok
        | ok repl =>
          rw [hr] at hok
          cases htl : matches_to_edit_at_offset rest rs with
          | error e => rw [htl] at hok; simp at hok
          | ok tail =>
            rcases List.mem_cons.mp hmem with heq | hmem2
            · rw [heq]; exact hc
            · exact ih rs tail htl m2 hmem2
      · simp at hcs

/-- If rendering a template succeeds, every node-less placeholder value it
looked up started at or after the match's node start. -/
theorem render_elements_ok_bounds :
    ∀ (elems : List PatternElement) (pvs : List (String × PlaceholderValue))
      (ns : Nat) (ntext : String) (out : String),
    render_elements pvs ns ntext elems = .ok out →
    ∀ p : Placeholder, PatternElement.placeholder p ∈ elems →
    ∀ pv : PlaceholderValue, find_placeholder_value p.ident pvs = some pv →
    pv.node = none → ns ≤ pv.range.start ∧ ns ≤ pv.range.stop := by
  intro elems
  induction elems with
  | nil => simp
  | cons e rest ih =>
    intro pvs ns ntext out hok p hmem pv hf hnode
    rcases List.mem_cons.mp hmem with heq | hmem2
    · subst heq
      rw [render_elements_ph pvs ns ntext p pv rest hf, hnode] at hok
      cases hcs : TextRange.checked_sub pv.range ns with
      | none => rw [hcs] at hok; simp at hok
      | some rel =>
        simp only [TextRange.checked_sub] at hcs
        split at hcs
        · rename_i hc
          exact hc
        · simp at hcs
    · match e with
      | PatternElement.token t =>
        rw [render_elements_token] at hok
        cases hr : render_elements pvs ns ntext rest with
        | error e2 => rw [hr] at hok; simp at hok
        | ok o2 => exact ih pvs ns ntext o2 hr p hmem2 pv hf hnode
      | PatternElement.placeholder p2 =>
        cases hf2 : find_placeholder_value p2.ident pvs with
        | none =>
          rw [render_elements_ph_miss pvs ns ntext p2 rest hf2] at hok
          simp at hok
        | some pv2 =>
          rw [render_elements_ph pvs ns ntext p2 pv2 rest hf2] at hok
          cases hmt : (match pv2.node with
              | some node_text => Except.ok node_text
              | none =>
                match TextRange.checked_sub pv2.range ns with
                | none => Except.error RErr.underflow
                | some rel =>
                  Except.ok (str_slice ntext rel.start rel.stop)) with
          | error e2 => rw [hmt] at hok; simp at hok
          | ok mt =>
            rw [hmt] at hok
            cases he : matches_to_edit_at_offset pv2.inner_matches
                pv2.range.start with
            | error e2 => rw [he] at hok; simp at hok
            | ok edit =>
              rw [he] at hok
              cases hr : render_elements pvs ns ntext rest with
              | error e2 => rw [hr] at hok; simp at hok
              | ok o2 => exact ih pvs ns ntext o2 hr p hmem2 pv hf hnode

/-- C9 counterexample: a placeholder value whose range starts before its
match's start renders successfully (no abort) when it carries a bound node —
the subtraction in question is only performed on the node-less path. -/
theorem abort_on_underflow_counterexample :
    find_placeholder_value "a" c9_match.placeholder_values = some c9_pv
    ∧ c9_pv.range.start < c9_match.node_start
    ∧ render_replace c9_match = .ok "t" := by
  refine ⟨rfl, by decide, ?_⟩
  rw [show c9_match = Match.mk ⟨5, 6⟩ 5 "u"
      [PatternElement.placeholder (Placeholder.new "a")] [("a", c9_pv)] []
    from rfl]
  rw [render_replace_mk,
    render_elements_ph [("a", c9_pv)] 5 "u" (Placeholder.new "a") c9_pv [] rfl,
    render_elements_nil]
  rw [show c9_pv.node = some "t" from rfl,
    show c9_pv.inner_matches = ([] : List Match) from rfl, m2e_nil]
  simp only [apply_edit, apply_indels, string_append_empty, String.join]
  simp [string_append_empty]
  decide

/-- C9 (amended): a match range starting before the frame's
`relative_start` makes the composer abort; a template placeholder whose
looked-up value is node-less with a range starting before the match's node
start makes rendering abort; and when every range lies within its enclosing
frame the underflow abort is unreachable. -/
theorem abort_on_underflow_spec :
    (∀ (ms : List Match) (rs : Nat),
      (∃ m ∈ ms, m.range.start < rs) →
      (matches_to_edit_at_offset ms rs).isOk = false)
    ∧ (∀ (m : Match) (p : Placeholder) (pv : PlaceholderValue),
      PatternElement.placeholder p ∈ m.template →
      find_placeholder_value p.ident m.placeholder_values = some pv →
      pv.node = none → pv.range.start < m.node_start →
      (render_replace m).isOk = false)
    ∧ (∀ (ms : List Match) (rs : Nat), wf_frame rs ms = true →
      matches_to_edit_at_offset ms rs ≠ .error RErr.underflow) := by
  refine ⟨?_, ?_, fun ms rs => no_underflow_frame rs ms⟩
  · intro ms rs ⟨m, hmem, hlt⟩
    cases hres : matches_to_edit_at_offset ms rs with
    | error e => rfl
    | ok indels =>
      have := (m2e_ok_bounds ms rs indels hres m hmem).1
      omega
  · intro m p pv hmem hf hnode hlt
    match m with
    | .mk range ns ntext template pvs comments =>
      simp only [Match.template, Match.placeholder_values, Match.node_start]
        at hmem hf hlt
      rw [render_replace_mk]
      cases hr : render_elements pvs ns ntext template with
      | error e => rfl
      | ok out =>
        have := (render_elements_ok_bounds template pvs ns ntext out hr
          p hmem pv hf hnode).1
        omega

/-- C9 witness: an out-of-frame match aborts; a well-formed nested tree
renders without the underflow abort. -/
theorem abort_on_underflow_spec_witness :
    ((matches_to_edit_at_offset
        [Match.mk ⟨0, 1⟩ 0 "x" [] [] []] 5).isOk = false)
    ∧ (render_replace
        (Match.mk ⟨5, 6⟩ 5 "u"
          [PatternElement.placeholder (Placeholder.new "a")]
          [("a", PlaceholderValue.mk ⟨0, 1⟩ none [])] [])).isOk = false
    ∧ matches_to_edit_at_offset
        [Match.mk ⟨2, 9⟩ 2 "abcdefg"
          [PatternElement.token (Token.mk SyntaxKind.IDENT "y")] [] []] 1
        ≠ .error RErr.underflow := by
  refine ⟨?_, ?_, ?_⟩
  · exact abort_on_underflow_spec.1 [Match.mk ⟨0, 1⟩ 0 "x" [] [] []] 5
      ⟨Match.mk ⟨0, 1⟩ 0 "x" [] [] [], List.mem_cons_self _ _, by decide⟩
  · exact abort_on_underflow_spec.2.1
      (Match.mk ⟨5, 6⟩ 5 "u"
        [PatternElement.placeholder (Placeholder.new "a")]
        [("a", PlaceholderValue.mk ⟨0, 1⟩ none [])] [])
      (Placeholder.new "a") (PlaceholderValue.mk ⟨0, 1⟩ none [])
      (by simp [Match.template]) rfl rfl (by decide)
  · exact abort_on_underflow_spec.2.2
      [Match.mk ⟨2, 9⟩ 2 "abcdefg"
        [PatternElement.token (Token.mk SyntaxKind.IDENT "y")] [] []] 1
      (by
        rw [show wf_frame 1 [Match.mk ⟨2, 9⟩ 2 "abcdefg"
            [PatternElement.token (Token.mk SyntaxKind.IDENT "y")] [] []]
          = (wf_match_entry 1 (Match.mk ⟨2, 9⟩ 2 "abcdefg"
              [PatternElement.token (Token.mk SyntaxKind.IDENT "y")] [] [])
            && wf_frame 1 []) by simp [wf_frame]]
        rw [show wf_match_entry 1 (Match.mk ⟨2, 9⟩ 2 "abcdefg"
            [PatternElement.token (Token.mk SyntaxKind.IDENT "y")] [] [])
          = (decide (1 ≤ 2) && decide (1 ≤ 9) && wf_values 2 []) by
            simp [wf_match_entry]]
        simp [wf_frame, wf_values])

/-! ## Computed equations and inversions for the placeholder scan -/

theorem go_cons_dollar_err (seen : List String) (t : Token) (rest : List Token)
    (ht : t.kind = SyntaxKind.DOLLAR) (e : String)
    (hpp : parse_placeholder rest = .error e) :
    parse_tokens_go seen (t :: rest) = .error e := by
  simp only [parse_tokens_go, ht, reduceIte]
  split
  · rename_i e2 hp
    rw [hpp] at hp
    injection hp with h
    rw [h]
  · rename_i p rest2 hp
    rw [hpp] at hp
    exact absurd hp (by simp)

theorem go_cons_dollar_dup (seen : List String) (t : Token) (rest rest2 : List Token)
    (p : Placeholder) (ht : t.kind = SyntaxKind.DOLLAR)
    (hpp : parse_placeholder rest = .ok (p, rest2)) (hmem : p.ident ∈ seen) :
    parse_tokens_go seen (t :: rest) = .error (dup_msg p.ident) := by
  simp only [parse_tokens_go, ht, reduceIte]
  split
  · rename_i e2 hp
    rw [hpp] at hp
    exact absurd hp (by simp)
  · rename_i p2 r2 hp
    rw [hpp] at hp
    injection hp with h
    injection h with h1 h2
    subst h1; subst h2
    simp [hmem]

theorem go_cons_dollar_ok (seen : List String) (t : Token) (rest rest2 : List Token)
    (p : Placeholder) (ht : t.kind = SyntaxKind.DOLLAR)
    (hpp : parse_placeholder rest = .ok (p, rest2)) (hmem : p.ident ∉ seen) :
    parse_tokens_go seen (t :: rest) =
      match parse_tokens_go (p.ident :: seen) rest2 with
      | .error e => .error e
      | .ok elems => .ok (.placeholder p :: elems) := by
  simp only [parse_tokens_go, ht, reduceIte]
  split
  · rename_i e2 hp
    rw [hpp] at hp
    exact absurd hp (by simp)
  · rename_i p2 r2 hp
    rw [hpp] at hp
    injection hp with h
    injection h with h1 h2
    subst h1; subst h2
    simp [hmem]

theorem go_cons_other (seen : List String) (t : Token) (rest : List Token)
    (ht : ¬ t.kind = SyntaxKind.DOLLAR) :
    parse_tokens_go seen (t :: rest) =
      match parse_tokens_go seen rest with
      | .error e => .error e
      | .ok elems => .ok (.token t :: elems) := by
  simp only [parse_tokens_go, ht, reduceIte]

theorem go_nil (seen : List String) : parse_tokens_go seen [] = .ok [] := by
  simp [parse_tokens_go]

theorem parse_placeholder_ok_inv {ts rest : List Token} {p : Placeholder}
    (h : parse_placeholder ts = .ok (p, rest)) :
    ∃ t2 : Token, ts = t2 :: rest ∧ t2.kind = SyntaxKind.IDENT
      ∧ p = Placeholder.new t2.text := by
  cases ts with
  | nil => simp [parse_placeholder] at h
  | cons t r =>
    simp only [parse_placeholder] at h
    split at h
    · rename_i hk
      simp only [Except.ok.injEq, Prod.mk.injEq] at h
      exact ⟨t, by rw [h.2], hk, h.1.symm⟩
    · simp at h

/-- Master induction over the placeholder scan: on success, the placeholder
names are distinct and new w.r.t. `seen`, the token elements are exactly the
non-sigil tokens in order, the placeholder names are exactly the post-sigil
identifiers in order, and no `DOLLAR` token survives. -/
theorem parse_tokens_go_master : ∀ (seen : List String) (toks : List Token),
    ∀ elems : List PatternElement, parse_tokens_go seen toks = .ok elems →
      (placeholder_idents elems).Nodup
      ∧ (∀ x ∈ placeholder_idents elems, x ∉ seen)
      ∧ token_elements elems = non_sigil_kept toks
      ∧ placeholder_idents elems = sigil_idents toks
      ∧ (∀ t : Token, PatternElement.token t ∈ elems → t.kind ≠ SyntaxKind.DOLLAR) := by
  intro seen toks
  induction seen, toks using parse_tokens_go.induct with
  | case1 seen =>
    intro elems hgo
    rw [go_nil] at hgo
    simp only [Except.ok.injEq] at hgo
    subst hgo
    simp [placeholder_idents, token_elements, non_sigil_kept, sigil_idents]
  | case2 seen t rest ht e hpp =>
    intro elems hgo
    rw [go_cons_dollar_err seen t rest ht e hpp] at hgo
    simp at hgo
  | case3 seen t rest ht p rest2 hpp hmem =>
    intro elems hgo
    rw [go_cons_dollar_dup seen t rest rest2 p ht hpp hmem] at hgo
    simp at hgo
  | case4 seen t rest ht p rest2 hpp hmem e herr ih =>
    intro elems hgo
    rw [go_cons_dollar_ok seen t rest rest2 p ht hpp hmem, herr] at hgo
    simp at hgo
  | case5 seen t rest ht p rest2 hpp hmem elems1 hok ih =>
    intro elems hgo
    rw [go_cons_dollar_ok seen t rest rest2 p ht hpp hmem, hok] at hgo
    simp only [Except.ok.injEq] at hgo
    subst hgo
    obtain ⟨hnd, hdisj, htok, hid, hnd2⟩ := ih elems1 hok
    obtain ⟨t2, hrest, ht2, hpnew⟩ := parse_placeholder_ok_inv hpp
    subst hrest
    refine ⟨?_, ?_, ?_, ?_, ?_⟩
    · simp only [placeholder_idents, List.filterMap_cons, List.nodup_cons]
      refine ⟨fun hmem2 => ?_, hnd⟩
      exact absurd (List.mem_cons_self _ _) (hdisj p.ident hmem2)
    · intro x hx
      simp only [placeholder_idents, List.filterMap_cons, List.mem_cons] at hx
      rcases hx with rfl | hx
      · exact hmem
      · intro hxs
        exact hdisj x hx (List.mem_cons_of_mem _ hxs)
    · simp only [token_elements, List.filterMap_cons]
      rw [show (non_sigil_kept (t :: t2 :: rest2)) = non_sigil_kept rest2 by
        simp [non_sigil_kept, ht]]
      exact htok
    · rw [show (sigil_idents (t :: t2 :: rest2)) = t2.text :: sigil_idents rest2 by
        simp [sigil_idents, ht]]
      rw [show placeholder_idents (PatternElement.placeholder p :: elems1)
          = p.ident :: placeholder_idents elems1 by simp [placeholder_idents]]
      rw [hid, hpnew]
      simp [Placeholder.new]
    · intro tk htk
      simp only [List.mem_cons] at htk
      rcases htk with h1 | h1
      · exact absurd h1 (by simp)
      · exact hnd2 tk h1
  | case6 seen t rest ht e herr ih =>
    intro elems hgo
    rw [go_cons_other seen t rest ht, herr] at hgo
    simp at hgo
  | case7 seen t rest ht elems1 hok ih =>
    intro elems hgo
    rw [go_cons_other seen t rest ht, hok] at hgo
    simp only [Except.ok.injEq] at hgo
    subst hgo
    obtain ⟨hnd, hdisj, htok, hid, hnd2⟩ := ih elems1 hok
    refine ⟨?_, ?_, ?_, ?_, ?_⟩
    · simpa [placeholder_idents, List.filterMap_cons] using hnd
    · intro x hx
      simp only [placeholder_idents, List.filterMap_cons] at hx
      exact hdisj x hx
    · rw [show non_sigil_kept (t :: rest) = t :: non_sigil_kept rest by
        cases rest <;> simp [non_sigil_kept, ht]]
      rw [show token_elements (PatternElement.token t :: elems1)
          = t :: token_elements elems1 by simp [token_elements]]
      rw [htok]
    · rw [show sigil_idents (t :: rest) = sigil_idents rest by
        cases rest <;> simp [sigil_idents, ht]]
      rw [show placeholder_idents (PatternElement.token t :: elems1)
          = placeholder_idents elems1 by simp [placeholder_idents]]
      exact hid
    · intro tk htk
      simp only [List.mem_cons] at htk
      rcases htk with h1 | h1
      · injection h1 with h2
        subst h2
        exact ht
      · exact hnd2 tk h1

/-- Appending more tokens to a successfully scanned sequence continues the
scan with the already-introduced placeholder names in the seen set. -/
theorem parse_tokens_go_append : ∀ (seen : List String) (l1 : List Token),
    ∀ elems : List PatternElement, parse_tokens_go seen l1 = .ok elems →
    ∀ l2 : List Token,
      parse_tokens_go seen (l1 ++ l2) =
        match parse_tokens_go ((placeholder_idents elems).reverse ++ seen) l2 with
        | .error e => .error e
        | .ok elems2 => .ok (elems ++ elems2) := by
  intro seen l1
  induction seen, l1 using parse_tokens_go.induct with
  | case1 seen =>
    intro elems hgo l2
    rw [go_nil] at hgo
    simp only [Except.ok.injEq] at hgo
    subst hgo
    simp only [placeholder_idents, List.filterMap_nil, List.reverse_nil,
      List.nil_append]
    cases h : parse_tokens_go seen l2 <;> simp
  | case2 seen t rest ht e hpp =>
    intro elems hgo l2
    rw [go_cons_dollar_err seen t rest ht e hpp] at hgo
    simp at hgo
  | case3 seen t rest ht p rest2 hpp hmem =>
    intro elems hgo l2
    rw [go_cons_dollar_dup seen t rest rest2 p ht hpp hmem] at hgo
    simp at hgo
  | case4 seen t rest ht p rest2 hpp hmem e herr ih =>
    intro elems hgo l2
    rw [go_cons_dollar_ok seen t rest rest2 p ht hpp hmem, herr] at hgo
    simp at hgo
  | case5 seen t rest ht p rest2 hpp hmem elems1 hok ih =>
    intro elems hgo l2
    rw [go_cons_dollar_ok seen t rest rest2 p ht hpp hmem, hok] at hgo
    simp only [Except.ok.injEq] at hgo
    subst hgo
    obtain ⟨t2, hrest, ht2, hpnew⟩ := parse_placeholder_ok_inv hpp
    subst hrest
    have hpp2 : parse_placeholder (t2 :: (rest2 ++ l2)) = .ok (p, rest2 ++ l2) := by
      simp only [parse_placeholder, ht2, reduceIte]
      rw [hpnew]
    have hstep : parse_tokens_go seen ((t :: t2 :: rest2) ++ l2) =
        match parse_tokens_go (p.ident :: seen) (rest2 ++ l2) with
        | .error e => .error e
        | .ok elems => .ok (.placeholder p :: elems) := by
      simpa using go_cons_dollar_ok seen t (t2 :: (rest2 ++ l2)) (rest2 ++ l2)
        p ht hpp2 hmem
    rw [hstep, ih elems1 hok l2]
    have hseen : (placeholder_idents elems1).reverse ++ p.ident :: seen
        = (placeholder_idents (PatternElement.placeholder p :: elems1)).reverse
            ++ seen := by
      simp [placeholder_idents, List.filterMap_cons]
    rw [hseen]
    cases h : parse_tokens_go
        ((placeholder_idents (PatternElement.placeholder p :: elems1)).reverse ++ seen)
        l2 <;> simp
  | case6 seen t rest ht e herr ih =>
    intro elems hgo l2
    rw [go_cons_other seen t rest ht, herr] at hgo
    simp at hgo
  | case7 seen t rest ht elems1 hok ih =>
    intro elems hgo l2
    rw [go_cons_other seen t rest ht, hok] at hgo
    simp only [Except.ok.injEq] at hgo
    subst hgo
    have hstep : parse_tokens_go seen ((t :: rest) ++ l2) =
        match parse_tokens_go seen (rest ++ l2) with
        | .error e => .error e
        | .ok elems => .ok (.token t :: elems) := by
      simpa using go_cons_other seen t (rest ++ l2) ht
    rw [hstep, ih elems1 hok l2]
    have hseen : (placeholder_idents elems1).reverse ++ seen
        = (placeholder_idents (PatternElement.token t :: elems1)).reverse ++ seen := by
      simp [placeholder_idents, List.filterMap_cons]
    rw [hseen]
    cases h : parse_tokens_go
        ((placeholder_idents (PatternElement.token t :: elems1)).reverse ++ seen)
        l2 <;> simp

/-! ## C6: the `==>>` delimiter contract of `SsrRule::from_str` -/

/-- C6: for every rule string, `SsrRule::from_str` fails with the
missing-delimiter error when `==>>` occurs zero times and with the
multiple-delimiter error when it occurs two or more times; with exactly one
occurrence the text before the delimiter and the text after it, each trimmed,
are handed to the pattern/template parsing pipeline. -/
theorem rule_delimiter_spec {α : Type} (G : GrammarParsers α) (query : String) :
    (count_delims query.toList = 0 →
      SsrRule.from_str G query = .error "Cannot find delemiter `==>>`")
    ∧ (2 ≤ count_delims query.toList →
      SsrRule.from_str G query = .error "More than one delimiter found")
    ∧ (count_delims query.toList = 1 →
      ∃ p t : List Char,
        query.toList = p ++ '=' :: '=' :: '>' :: '>' :: t
        ∧ SsrRule.from_str G query
            = rule_from_parts G (trim_chars p).asString (trim_chars t).asString) := by
  have hlen := split_delim_go_length [] query.toList
  refine ⟨?_, ?_, ?_⟩
  · intro h0
    rw [h0] at hlen
    match hs : split_delim_go [] query.toList, hlen with
    | [x], _ =>
      simp only [SsrRule.from_str, split_delim, hs]
  · intro h2
    match hs : split_delim_go [] query.toList, hlen with
    | a :: b :: c :: rest, hlen =>
      simp only [SsrRule.from_str, split_delim, hs]
    | [a], hlen => simp only [List.length_cons, List.length_nil] at hlen; omega
    | [a, b], hlen => simp only [List.length_cons, List.length_nil] at hlen; omega
  · intro h1
    rw [h1] at hlen
    match hs : split_delim_go [] query.toList, hlen with
    | [p, t], _ =>
      refine ⟨p, t, ?_, ?_⟩
      · have := split_delim_go_two [] query.toList p t hs
        simpa using this
      · simp only [SsrRule.from_str, split_delim, hs]

/-- C6 witness: concrete rule strings with zero, one and two delimiters. -/
theorem rule_delimiter_spec_witness :
    (SsrRule.from_str (α := Unit) ⟨fun _ => some (), fun _ => none, fun _ => none,
        fun _ => none, fun _ => none⟩ "foo bar"
      = .error "Cannot find delemiter `==>>`")
    ∧ (SsrRule.from_str (α := Unit) ⟨fun _ => some (), fun _ => none, fun _ => none,
        fun _ => none, fun _ => none⟩ "a ==>> b ==>> c"
      = .error "More than one delimiter found") := by
  constructor
  · exact (rule_delimiter_spec _ "foo bar").1 (by decide)
  · exact (rule_delimiter_spec _ "a ==>> b ==>> c").2.1 (by decide)

/-! ## C8: `parse_placeholder` -/

/-- C8: when `$` is seen, an immediately following identifier token becomes a
`Placeholder`; a following token of any other kind fails with
"Placeholders should be $name"; no following token at all fails with
"Placeholder ($) with no name"; and `parse_pattern`'s scan propagates these
errors verbatim from the `$` it encountered. -/
theorem parse_placeholder_spec :
    (parse_placeholder [] = .error "Placeholder ($) with no name")
    ∧ (∀ (t : Token) (rest : List Token), t.kind = SyntaxKind.IDENT →
        parse_placeholder (t :: rest) = .ok (Placeholder.new t.text, rest))
    ∧ (∀ (t : Token) (rest : List Token), t.kind ≠ SyntaxKind.IDENT →
        parse_placeholder (t :: rest) = .error "Placeholders should be $name")
    ∧ (∀ (d : Token) (rest : List Token) (e : String),
        d.kind = SyntaxKind.DOLLAR → parse_placeholder rest = .error e →
        parse_tokens (d :: rest) = .error e) := by
  refine ⟨rfl, ?_, ?_, ?_⟩
  · intro t rest ht
    simp [parse_placeholder, ht]
  · intro t rest ht
    simp [parse_placeholder, ht]
  · intro d rest e hd he
    simp only [parse_tokens, parse_tokens_go, hd, if_true, reduceIte]
    split
    · rename_i e2 hp
      rw [he] at hp
      injection hp with h3
      rw [h3]
    · rename_i p rest2 hp
      rw [he] at hp
      exact absurd hp (by simp)

/-- C8 witness: the three behaviours at concrete tokens. -/
theorem parse_placeholder_spec_witness :
    (parse_placeholder [Token.mk SyntaxKind.IDENT "a"]
      = .ok (Placeholder.new "a", []))
    ∧ (parse_placeholder [Token.mk SyntaxKind.COMMA ","]
      = .error "Placeholders should be $name")
    ∧ (parse_tokens [Token.mk SyntaxKind.DOLLAR "$"]
      = .error "Placeholder ($) with no name") :=
  ⟨parse_placeholder_spec.2.1 (Token.mk SyntaxKind.IDENT "a") [] rfl,
   parse_placeholder_spec.2.2.1 (Token.mk SyntaxKind.COMMA ",") [] (by decide),
   parse_placeholder_spec.2.2.2 (Token.mk SyntaxKind.DOLLAR "$") [] _ rfl
     parse_placeholder_spec.1⟩

/-! ## C2: the five grammar entry points of the pattern compiler -/

/-- C2: once the pattern text has token-parsed, the compiler records the
result of each of the five grammar entry points on the stand-in-substituted
text, keeping every successful interpretation; it fails, with the error
naming the five accepted kinds, exactly when all five fail. -/
theorem pattern_compiler_spec {α : Type} (G : GrammarParsers α)
    (toks : List Token) (elems : List PatternElement) (code : String)
    (h : parse_tokens toks = .ok elems)
    (hcode : code = (RawSearchPattern.mk elems).as_rust_code) :
    ((G.expr code = none ∧ G.type_ref code = none ∧ G.item code = none
        ∧ G.path code = none ∧ G.pattern code = none)
      ↔ SsrPattern.from_tokens G toks = .error invalid_pattern_msg)
    ∧ (∀ res : SsrPattern α, SsrPattern.from_tokens G toks = .ok res →
        res.raw.tokens = elems ∧ res.expr = G.expr code
        ∧ res.type_ref = G.type_ref code ∧ res.item = G.item code
        ∧ res.path = G.path code ∧ res.pattern = G.pattern code)
    ∧ (¬ (G.expr code = none ∧ G.type_ref code = none ∧ G.item code = none
        ∧ G.path code = none ∧ G.pattern code = none) →
        ∃ res : SsrPattern α, SsrPattern.from_tokens G toks = .ok res) := by
  subst hcode
  by_cases hall : G.expr (RawSearchPattern.mk elems).as_rust_code = none
      ∧ G.type_ref (RawSearchPattern.mk elems).as_rust_code = none
      ∧ G.item (RawSearchPattern.mk elems).as_rust_code = none
      ∧ G.path (RawSearchPattern.mk elems).as_rust_code = none
      ∧ G.pattern (RawSearchPattern.mk elems).as_rust_code = none
  · obtain ⟨h1, h2, h3, h4, h5⟩ := hall
    have hres : SsrPattern.from_tokens G toks = .error invalid_pattern_msg := by
      simp [SsrPattern.from_tokens, h, h1, h2, h3, h4, h5]
    refine ⟨⟨fun _ => hres, fun _ => ⟨h1, h2, h3, h4, h5⟩⟩, ?_, ?_⟩
    · intro res hok
      rw [hres] at hok
      exact absurd hok (by simp)
    · intro hne
      exact absurd ⟨h1, h2, h3, h4, h5⟩ hne
  · have hcond : ((G.expr (RawSearchPattern.mk elems).as_rust_code).isNone
        && (G.type_ref (RawSearchPattern.mk elems).as_rust_code).isNone
        && (G.item (RawSearchPattern.mk elems).as_rust_code).isNone
        && (G.path (RawSearchPattern.mk elems).as_rust_code).isNone
        && (G.pattern (RawSearchPattern.mk elems).as_rust_code).isNone) = false := by
      rw [Bool.eq_false_iff]
      intro hb
      simp only [Bool.and_eq_true, Option.isNone_iff_eq_none] at hb
      exact hall ⟨hb.1.1.1.1, hb.1.1.1.2, hb.1.1.2, hb.1.2, hb.2⟩
    have hres : SsrPattern.from_tokens G toks
        = .ok { raw := ⟨elems⟩
                expr := G.expr (RawSearchPattern.mk elems).as_rust_code
                type_ref := G.type_ref (RawSearchPattern.mk elems).as_rust_code
                item := G.item (RawSearchPattern.mk elems).as_rust_code
                path := G.path (RawSearchPattern.mk elems).as_rust_code
                pattern := G.pattern (RawSearchPattern.mk elems).as_rust_code
                placeholders_by_stand_in :=
                  (RawSearchPattern.mk elems).placeholders_by_stand_in } := by
      simp only [SsrPattern.from_tokens, h]
      rw [if_neg (by simp [hcond])]
    refine ⟨⟨fun hx => absurd hx hall, fun hx => ?_⟩, ?_, fun _ => ⟨_, hres⟩⟩
    · rw [hres] at hx
      exact absurd hx (by simp)
    · intro res hok
      rw [hres] at hok
      simp only [Except.ok.injEq] at hok
      rw [← hok]
      exact ⟨rfl, rfl, rfl, rfl, rfl, rfl⟩

/-- C2 witness: a single-identifier pattern, a parser structure succeeding
only as an expression, and one failing everywhere. -/
theorem pattern_compiler_spec_witness :
    (parse_tokens [Token.mk SyntaxKind.IDENT "x"]
        = .ok [PatternElement.token (Token.mk SyntaxKind.IDENT "x")])
    ∧ (∃ res : SsrPattern Unit,
        SsrPattern.from_tokens ⟨fun _ => some (), fun _ => none, fun _ => none,
          fun _ => none, fun _ => none⟩ [Token.mk SyntaxKind.IDENT "x"] = .ok res)
    ∧ SsrPattern.from_tokens (α := Unit) ⟨fun _ => none, fun _ => none,
        fun _ => none, fun _ => none, fun _ => none⟩
        [Token.mk SyntaxKind.IDENT "x"] = .error invalid_pattern_msg := by
  have hp : parse_tokens [Token.mk SyntaxKind.IDENT "x"]
      = .ok [PatternElement.token (Token.mk SyntaxKind.IDENT "x")] := by
    simp [parse_tokens, parse_tokens_go]
  refine ⟨hp, ?_, ?_⟩
  · exact (pattern_compiler_spec _ _ _ _ hp rfl).2.2 (by simp)
  · exact (pattern_compiler_spec _ _ _ _ hp rfl).1.mp (by simp)

/-! ## C4: rendering a placeholder-free template -/

theorem render_elements_no_placeholder (pvs : List (String × PlaceholderValue))
    (ns : Nat) (ntext : String) :
    ∀ elems : List PatternElement,
      (∀ p : Placeholder, PatternElement.placeholder p ∉ elems) →
      render_elements pvs ns ntext elems = .ok (concat_token_text elems) := by
  intro elems
  induction elems with
  | nil => intro _; simp [render_elements, concat_token_text]
  | cons e rest ih =>
    intro hnp
    match e with
    | PatternElement.token t =>
      have hrest : render_elements pvs ns ntext rest = .ok (concat_token_text rest) :=
        ih fun p hp => hnp p (List.mem_cons_of_mem _ hp)
      simp [render_elements, hrest, concat_token_text]
    | PatternElement.placeholder p =>
      exact absurd (List.mem_cons_self _ _) (hnp p)

/-- C4 (amended): a match whose template has no placeholder elements renders
to the template's literal token text followed by the verbatim ignored
comments, regardless of `placeholder_values`; with no ignored comments this
is the literal text unchanged. -/
theorem render_no_placeholder_spec (m : Match)
    (h : ∀ p : Placeholder, PatternElement.placeholder p ∉ m.template) :
    render_replace m = .ok (concat_token_text m.template
      ++ String.join m.ignored_comments) := by
  cases m with
  | mk range ns ntext template pvs comments =>
    simp only [Match.template] at h
    simp only [render_replace, Match.template, Match.ignored_comments,
      render_elements_no_placeholder pvs ns ntext template h]

/-- C4 counterexample: the render output also carries the match's ignored
comments, so it differs from the bare template text. -/
theorem render_no_placeholder_counterexample :
    ¬ (render_replace c4_match = .ok (concat_token_text c4_match.template)) := by
  intro hcontra
  have hr : render_replace c4_match = .ok "x/* comment */" := by
    simp [render_replace, render_elements, c4_match]
    decide
  rw [hr] at hcontra
  injection hcontra with h2
  rw [show concat_token_text c4_match.template = "x" from rfl] at h2
  exact absurd h2 (by decide)

/-! ## C3: `validate_rule` and undefined template placeholders -/

theorem undefined_filterMap_eq (defined : List String) :
    ∀ elems : List PatternElement,
      (elems.filterMap fun e =>
        match e with
        | PatternElement.placeholder p =>
          if p.ident ∈ defined then none else some ("$" ++ p.ident)
        | _ => none)
      = ((placeholder_idents elems).filter (fun x => x ∉ defined)).map
          (fun x => "$" ++ x) := by
  intro elems
  induction elems with
  | nil => simp [placeholder_idents]
  | cons e rest ih =>
    match e with
    | PatternElement.token t =>
      simpa [placeholder_idents, List.filterMap_cons] using ih
    | PatternElement.placeholder p =>
      by_cases hmem : p.ident ∈ defined
      · simpa [placeholder_idents, List.filterMap_cons, List.filter_cons, hmem]
          using ih
      · simpa [placeholder_idents, List.filterMap_cons, List.filter_cons, hmem]
          using ih

theorem dollar_prefix_injective :
    Function.Injective (fun x : String => "$" ++ x) := by
  intro a b h
  have hd : ("$" ++ a).data = ("$" ++ b).data := congrArg String.data h
  cases a with
  | mk la =>
    cases b with
    | mk lb =>
      simp only [String.data] at hd
      have : ('$' :: la) = ('$' :: lb) := hd
      simp only [List.cons.injEq, true_and] at this
      rw [this]

/-- C3: validation succeeds exactly when every template placeholder is
defined by the pattern; otherwise it fails with the message listing every
undefined identifier, `$`-prefixed, joined by `", "`, in template order; and
for a template produced by the placeholder scan this list has no
duplicates. -/
theorem validate_rule_spec {α : Type} (rule : SsrRule α) (toksT : List Token)
    (hT : parse_tokens toksT = .ok rule.template.tokens) :
    (validate_rule rule = .ok ()
      ↔ ∀ x ∈ placeholder_idents rule.template.tokens,
          x ∈ placeholder_idents rule.pattern.raw.tokens)
    ∧ ((∃ x ∈ placeholder_idents rule.template.tokens,
          x ∉ placeholder_idents rule.pattern.raw.tokens) →
        validate_rule rule = .error
          ("Replacement contains undefined placeholders: "
            ++ String.intercalate ", " (undefined_placeholder_list rule)))
    ∧ (undefined_placeholder_list rule).Nodup := by
  have hbridge := undefined_filterMap_eq
    (placeholder_idents rule.pattern.raw.tokens) rule.template.tokens
  have hval : validate_rule rule =
      if undefined_placeholder_list rule = [] then .ok ()
      else .error ("Replacement contains undefined placeholders: "
        ++ String.intercalate ", " (undefined_placeholder_list rule)) := by
    simp only [validate_rule, hbridge]
    rfl
  have hempty : undefined_placeholder_list rule = []
      ↔ ∀ x ∈ placeholder_idents rule.template.tokens,
          x ∈ placeholder_idents rule.pattern.raw.tokens := by
    simp only [undefined_placeholder_list, List.map_eq_nil_iff,
      List.filter_eq_nil_iff, decide_not, Bool.not_eq_eq_eq_not, Bool.not_true,
      decide_eq_false_iff_not, not_not]
  refine ⟨?_, ?_, ?_⟩
  · rw [hval]
    constructor
    · intro hok
      by_cases hu : undefined_placeholder_list rule = []
      · exact hempty.mp hu
      · rw [if_neg hu] at hok
        exact absurd hok (by simp)
    · intro hall
      rw [if_pos (hempty.mpr hall)]
  · intro ⟨x, hx, hnx⟩
    rw [hval]
    have hne : undefined_placeholder_list rule ≠ [] := by
      intro hnil
      exact hnx (hempty.mp hnil x hx)
    rw [if_neg hne]
  · have hnd : (placeholder_idents rule.template.tokens).Nodup :=
      (parse_tokens_go_master [] toksT rule.template.tokens hT).1
    exact ((hnd.filter _).map dollar_prefix_injective)

/-- C3 witness: a rule whose template references `$b` and `$c` undefined. -/
theorem validate_rule_spec_witness :
    (parse_tokens [Token.mk SyntaxKind.DOLLAR "$", Token.mk SyntaxKind.IDENT "b",
        Token.mk SyntaxKind.DOLLAR "$", Token.mk SyntaxKind.IDENT "c"]
      = .ok [PatternElement.placeholder (Placeholder.new "b"),
             PatternElement.placeholder (Placeholder.new "c")])
    ∧ validate_rule
        (SsrRule.mk (α := Unit)
          ⟨⟨[PatternElement.placeholder (Placeholder.new "a")]⟩, none, none, none,
            none, none, []⟩
          ⟨[PatternElement.placeholder (Placeholder.new "b"),
            PatternElement.placeholder (Placeholder.new "c")]⟩)
      = .error "Replacement contains undefined placeholders: $b, $c" := by
  have hp : parse_tokens [Token.mk SyntaxKind.DOLLAR "$",
      Token.mk SyntaxKind.IDENT "b", Token.mk SyntaxKind.DOLLAR "$",
      Token.mk SyntaxKind.IDENT "c"]
      = .ok [PatternElement.placeholder (Placeholder.new "b"),
             PatternElement.placeholder (Placeholder.new "c")] := by
    simp [parse_tokens, parse_tokens_go, parse_placeholder, Placeholder.new]
  refine ⟨hp, ?_⟩
  have := (validate_rule_spec
    (SsrRule.mk (α := Unit)
      ⟨⟨[PatternElement.placeholder (Placeholder.new "a")]⟩, none, none, none,
        none, none, []⟩
      ⟨[PatternElement.placeholder (Placeholder.new "b"),
        PatternElement.placeholder (Placeholder.new "c")]⟩)
    _ hp).2.1 ⟨"b", by simp [placeholder_idents, Placeholder.new], by
      simp [placeholder_idents, Placeholder.new]⟩
  simpa [undefined_placeholder_list, placeholder_idents, Placeholder.new,
    String.intercalate] using this

/-! ## C10: every sigil is consumed; other tokens pass through -/

/-- C10: on every successful scan the output has no `DOLLAR`-kind token
element, its token elements are exactly the input tokens outside the
sigil-plus-identifier pairs, in order and verbatim, and its placeholders are
exactly the identifiers following the sigils, in order. -/
theorem sigil_consumption_spec (toks : List Token) (elems : List PatternElement)
    (h : parse_tokens toks = .ok elems) :
    (∀ t : Token, PatternElement.token t ∈ elems → t.kind ≠ SyntaxKind.DOLLAR)
    ∧ token_elements elems = non_sigil_kept toks
    ∧ placeholder_idents elems = sigil_idents toks := by
  obtain ⟨_, _, htok, hid, hnd⟩ := parse_tokens_go_master [] toks elems h
  exact ⟨hnd, htok, hid⟩

/-- C10 witness: a scan with one sigil pair and one kept token. -/
theorem sigil_consumption_spec_witness :
    (parse_tokens [Token.mk SyntaxKind.DOLLAR "$", Token.mk SyntaxKind.IDENT "a",
        Token.mk SyntaxKind.COMMA ","]
      = .ok [PatternElement.placeholder (Placeholder.new "a"),
             PatternElement.token (Token.mk SyntaxKind.COMMA ",")])
    ∧ token_elements [PatternElement.placeholder (Placeholder.new "a"),
        PatternElement.token (Token.mk SyntaxKind.COMMA ",")]
      = non_sigil_kept [Token.mk SyntaxKind.DOLLAR "$",
          Token.mk SyntaxKind.IDENT "a", Token.mk SyntaxKind.COMMA ","]
    ∧ placeholder_idents [PatternElement.placeholder (Placeholder.new "a"),
        PatternElement.token (Token.mk SyntaxKind.COMMA ",")]
      = sigil_idents [Token.mk SyntaxKind.DOLLAR "$",
          Token.mk SyntaxKind.IDENT "a", Token.mk SyntaxKind.COMMA ","] := by
  have hp : parse_tokens [Token.mk SyntaxKind.DOLLAR "$",
      Token.mk SyntaxKind.IDENT "a", Token.mk SyntaxKind.COMMA ","]
      = .ok [PatternElement.placeholder (Placeholder.new "a"),
             PatternElement.token (Token.mk SyntaxKind.COMMA ",")] := by
    simp [parse_tokens, parse_tokens_go, parse_placeholder, Placeholder.new]
  have := sigil_consumption_spec _ _ hp
  exact ⟨hp, this.2.1, this.2.2⟩

/-! ## C7: duplicate placeholder names within one token sequence -/

/-- C7: a successful scan never contains a repeated placeholder name; as soon
as the scan reaches a second introduction of an already-introduced name it
fails with the duplicate error naming that identifier, whatever follows; and
the check is per token sequence — a rule whose pattern and template share a
placeholder name parses fine. -/
theorem duplicate_placeholder_spec {α : Type} :
    (∀ (toks : List Token) (elems : List PatternElement),
      parse_tokens toks = .ok elems → (placeholder_idents elems).Nodup)
    ∧ (∀ (toks suffix : List Token) (elems : List PatternElement) (x : String),
      parse_tokens toks = .ok elems → x ∈ placeholder_idents elems →
      parse_tokens (toks ++ Token.mk SyntaxKind.DOLLAR "$"
          :: Token.mk SyntaxKind.IDENT x :: suffix)
        = .error (dup_msg x))
    ∧ (∀ (G : GrammarParsers α) (e : α), G.expr "__placeholder_a" = some e →
      ∃ rule : SsrRule α, SsrRule.from_str G "$a ==>> $a" = .ok rule) := by
  refine ⟨?_, ?_, ?_⟩
  · intro toks elems h
    exact (parse_tokens_go_master [] toks elems h).1
  · intro toks suffix elems x h hx
    have happ := parse_tokens_go_append [] toks elems h
      (Token.mk SyntaxKind.DOLLAR "$" :: Token.mk SyntaxKind.IDENT x :: suffix)
    have hpp : parse_placeholder (Token.mk SyntaxKind.IDENT x :: suffix)
        = .ok (Placeholder.new x, suffix) := by
      simp [parse_placeholder]
    have hmem : (Placeholder.new x).ident
        ∈ (placeholder_idents elems).reverse ++ [] := by
      simp [Placeholder.new, hx]
    have hdup := go_cons_dollar_dup ((placeholder_idents elems).reverse ++ [])
      (Token.mk SyntaxKind.DOLLAR "$") (Token.mk SyntaxKind.IDENT x :: suffix)
      suffix (Placeholder.new x) rfl hpp hmem
    rw [parse_tokens] at *
    rw [happ, hdup]
    simp [Placeholder.new]
  · intro G e hG
    have hsplit : split_delim "$a ==>> $a".toList
        = [['$', 'a', ' '], [' ', '$', 'a']] := by decide
    have htrim1 : (trim_chars ['$', 'a', ' ']).asString = "$a" := by decide
    have htrim2 : (trim_chars [' ', '$', 'a']).asString = "$a" := by decide
    have htok : tokenize "$a" = [Token.mk SyntaxKind.DOLLAR "$",
        Token.mk SyntaxKind.IDENT "a"] := by decide
    have hparse : parse_tokens [Token.mk SyntaxKind.DOLLAR "$",
        Token.mk SyntaxKind.IDENT "a"]
        = .ok [PatternElement.placeholder (Placeholder.new "a")] := by
      simp [parse_tokens, parse_tokens_go, parse_placeholder]
    have hcode : (RawSearchPattern.mk
        [PatternElement.placeholder (Placeholder.new "a")]).as_rust_code
        = "__placeholder_a" := by decide
    have hpat : SsrPattern.from_str G "$a" = .ok
        { raw := ⟨[PatternElement.placeholder (Placeholder.new "a")]⟩
          expr := G.expr "__placeholder_a"
          type_ref := G.type_ref "__placeholder_a"
          item := G.item "__placeholder_a"
          path := G.path "__placeholder_a"
          pattern := G.pattern "__placeholder_a"
          placeholders_by_stand_in := (RawSearchPattern.mk
            [PatternElement.placeholder (Placeholder.new "a")]).placeholders_by_stand_in } := by
      simp only [SsrPattern.from_str, SsrPattern.from_tokens, htok, hparse, hcode]
      rw [if_neg (by simp [hG])]
    have htem : SsrTemplate.from_str G "$a" = .ok
        ⟨[PatternElement.placeholder (Placeholder.new "a")]⟩ := by
      simp only [SsrTemplate.from_str, parse_pattern, htok, hparse, hpat]
    have hfinal : SsrRule.from_str G "$a ==>> $a" = .ok
        ⟨{ raw := ⟨[PatternElement.placeholder (Placeholder.new "a")]⟩
           expr := G.expr "__placeholder_a"
           type_ref := G.type_ref "__placeholder_a"
           item := G.item "__placeholder_a"
           path := G.path "__placeholder_a"
           pattern := G.pattern "__placeholder_a"
           placeholders_by_stand_in := (RawSearchPattern.mk
             [PatternElement.placeholder (Placeholder.new "a")]).placeholders_by_stand_in },
         ⟨[PatternElement.placeholder (Placeholder.new "a")]⟩⟩ := by
      simp only [SsrRule.from_str, hsplit, htrim1, htrim2, rule_from_parts,
        hpat, htem]
      rw [show validate_rule (α := α)
          ⟨{ raw := ⟨[PatternElement.placeholder (Placeholder.new "a")]⟩
             expr := G.expr "__placeholder_a"
             type_ref := G.type_ref "__placeholder_a"
             item := G.item "__placeholder_a"
             path := G.path "__placeholder_a"
             pattern := G.pattern "__placeholder_a"
             placeholders_by_stand_in := (RawSearchPattern.mk
               [PatternElement.placeholder (Placeholder.new "a")]).placeholders_by_stand_in },
           ⟨[PatternElement.placeholder (Placeholder.new "a")]⟩⟩ = .ok () by
        simp [validate_rule, placeholder_idents, Placeholder.new]]
    exact ⟨_, hfinal⟩

/-- C7 witness: `$a $a` fails with the duplicate error; sharing `$a` across
pattern and template succeeds. -/
theorem duplicate_placeholder_spec_witness :
    (parse_tokens [Token.mk SyntaxKind.DOLLAR "$", Token.mk SyntaxKind.IDENT "a",
        Token.mk SyntaxKind.DOLLAR "$", Token.mk SyntaxKind.IDENT "a"]
      = .error (dup_msg "a"))
    ∧ (∃ rule : SsrRule Unit,
        SsrRule.from_str ⟨fun _ => some (), fun _ => none, fun _ => none,
          fun _ => none, fun _ => none⟩ "$a ==>> $a" = .ok rule) := by
  constructor
  · have hp : parse_tokens [Token.mk SyntaxKind.DOLLAR "$",
        Token.mk SyntaxKind.IDENT "a"]
        = .ok [PatternElement.placeholder (Placeholder.new "a")] := by
      simp [parse_tokens, parse_tokens_go, parse_placeholder]
    have := (duplicate_placeholder_spec (α := Unit)).2.1
      [Token.mk SyntaxKind.DOLLAR "$", Token.mk SyntaxKind.IDENT "a"] []
      [PatternElement.placeholder (Placeholder.new "a")] "a" hp
      (by simp [placeholder_idents, Placeholder.new])
    simpa using this
  · exact (duplicate_placeholder_spec (α := Unit)).2.2
      ⟨fun _ => some (), fun _ => none, fun _ => none, fun _ => none,
        fun _ => none⟩ () rfl

/-! ## C5: the reference happy case -/

/-- C5: parsing `"foo($a, $b) ==>> bar($b, $a)"` succeeds (for any grammar
oracle accepting the two stand-in texts as expressions) and yields exactly
the expected pattern and template element sequences, whitespace included. -/
theorem happy_case_spec {α : Type} (G : GrammarParsers α) (e1 e2 : α)
    (hp : G.expr "foo(__placeholder_a, __placeholder_b)" = some e1)
    (ht : G.expr "bar(__placeholder_b, __placeholder_a)" = some e2) :
    ∃ rule : SsrRule α,
      SsrRule.from_str G "foo($a, $b) ==>> bar($b, $a)" = .ok rule
      ∧ rule.pattern.raw.tokens = happy_pattern_tokens
      ∧ rule.template.tokens = happy_template_tokens := by
  have hsplit : split_delim "foo($a, $b) ==>> bar($b, $a)".toList
      = ["foo($a, $b) ".toList, " bar($b, $a)".toList] := by decide
  have htrim1 : (trim_chars "foo($a, $b) ".toList).asString = "foo($a, $b)" := by
    decide
  have htrim2 : (trim_chars " bar($b, $a)".toList).asString = "bar($b, $a)" := by
    decide
  have htokP : tokenize "foo($a, $b)"
      = [Token.mk SyntaxKind.IDENT "foo", Token.mk SyntaxKind.L_PAREN "(",
         Token.mk SyntaxKind.DOLLAR "$", Token.mk SyntaxKind.IDENT "a",
         Token.mk SyntaxKind.COMMA ",", Token.mk SyntaxKind.WHITESPACE " ",
         Token.mk SyntaxKind.DOLLAR "$", Token.mk SyntaxKind.IDENT "b",
         Token.mk SyntaxKind.R_PAREN ")"] := by decide
  have hparseP : parse_tokens
      [Token.mk SyntaxKind.IDENT "foo", Token.mk SyntaxKind.L_PAREN "(",
       Token.mk SyntaxKind.DOLLAR "$", Token.mk SyntaxKind.IDENT "a",
       Token.mk SyntaxKind.COMMA ",", Token.mk SyntaxKind.WHITESPACE " ",
       Token.mk SyntaxKind.DOLLAR "$", Token.mk SyntaxKind.IDENT "b",
       Token.mk SyntaxKind.R_PAREN ")"]
      = .ok happy_pattern_tokens := by
    simp [parse_tokens, parse_tokens_go, parse_placeholder,
      happy_pattern_tokens, Placeholder.new, dup_msg]
  have hcodeP : (RawSearchPattern.mk happy_pattern_tokens).as_rust_code
      = "foo(__placeholder_a, __placeholder_b)" := by decide
  have hpat : SsrPattern.from_str G "foo($a, $b)" = .ok
      { raw := ⟨happy_pattern_tokens⟩
        expr := G.expr "foo(__placeholder_a, __placeholder_b)"
        type_ref := G.type_ref "foo(__placeholder_a, __placeholder_b)"
        item := G.item "foo(__placeholder_a, __placeholder_b)"
        path := G.path "foo(__placeholder_a, __placeholder_b)"
        pattern := G.pattern "foo(__placeholder_a, __placeholder_b)"
        placeholders_by_stand_in :=
          (RawSearchPattern.mk happy_pattern_tokens).placeholders_by_stand_in } := by
    simp only [SsrPattern.from_str, SsrPattern.from_tokens, htokP, hparseP, hcodeP]
    rw [if_neg (by simp [hp])]
  have htokT : tokenize "bar($b, $a)"
      = [Token.mk SyntaxKind.IDENT "bar", Token.mk SyntaxKind.L_PAREN "(",
         Token.mk SyntaxKind.DOLLAR "$", Token.mk SyntaxKind.IDENT "b",
         Token.mk SyntaxKind.COMMA ",", Token.mk SyntaxKind.WHITESPACE " ",
         Token.mk SyntaxKind.DOLLAR "$", Token.mk SyntaxKind.IDENT "a",
         Token.mk SyntaxKind.R_PAREN ")"] := by decide
  have hparseT : parse_tokens
      [Token.mk SyntaxKind.IDENT "bar", Token.mk SyntaxKind.L_PAREN "(",
       Token.mk SyntaxKind.DOLLAR "$", Token.mk SyntaxKind.IDENT "b",
       Token.mk SyntaxKind.COMMA ",", Token.mk SyntaxKind.WHITESPACE " ",
       Token.mk SyntaxKind.DOLLAR "$", Token.mk SyntaxKind.IDENT "a",
       Token.mk SyntaxKind.R_PAREN ")"]
      = .ok happy_template_tokens := by
    simp [parse_tokens, parse_tokens_go, parse_placeholder,
      happy_template_tokens, Placeholder.new, dup_msg]
  have hcodeT : (RawSearchPattern.mk happy_template_tokens).as_rust_code
      = "bar(__placeholder_b, __placeholder_a)" := by decide
  have hpatT : SsrPattern.from_str G "bar($b, $a)" = .ok
      { raw := ⟨happy_template_tokens⟩
        expr := G.expr "bar(__placeholder_b, __placeholder_a)"
        type_ref := G.type_ref "bar(__placeholder_b, __placeholder_a)"
        item := G.item "bar(__placeholder_b, __placeholder_a)"
        path := G.path "bar(__placeholder_b, __placeholder_a)"
        pattern := G.pattern "bar(__placeholder_b, __placeholder_a)"
        placeholders_by_stand_in :=
          (RawSearchPattern.mk happy_template_tokens).placeholders_by_stand_in } := by
    simp only [SsrPattern.from_str, SsrPattern.from_tokens, htokT, hparseT, hcodeT]
    rw [if_neg (by simp [ht])]
  have htem : SsrTemplate.from_str G "bar($b, $a)" = .ok ⟨happy_template_tokens⟩ := by
    simp only [SsrTemplate.from_str, parse_pattern, htokT, hparseT, hpatT]
  have hfinal : SsrRule.from_str G "foo($a, $b) ==>> bar($b, $a)" = .ok
      ⟨{ raw := ⟨happy_pattern_tokens⟩
         expr := G.expr "foo(__placeholder_a, __placeholder_b)"
         type_ref := G.type_ref "foo(__placeholder_a, __placeholder_b)"
         item := G.item "foo(__placeholder_a, __placeholder_b)"
         path := G.path "foo(__placeholder_a, __placeholder_b)"
         pattern := G.pattern "foo(__placeholder_a, __placeholder_b)"
         placeholders_by_stand_in :=
           (RawSearchPattern.mk happy_pattern_tokens).placeholders_by_stand_in },
       ⟨happy_template_tokens⟩⟩ := by
    simp only [SsrRule.from_str, hsplit, htrim1, htrim2, rule_from_parts,
      hpat, htem]
    rw [show validate_rule (α := α)
        ⟨{ raw := ⟨happy_pattern_tokens⟩
           expr := G.expr "foo(__placeholder_a, __placeholder_b)"
           type_ref := G.type_ref "foo(__placeholder_a, __placeholder_b)"
           item := G.item "foo(__placeholder_a, __placeholder_b)"
           path := G.path "foo(__placeholder_a, __placeholder_b)"
           pattern := G.pattern "foo(__placeholder_a, __placeholder_b)"
           placeholders_by_stand_in :=
             (RawSearchPattern.mk happy_pattern_tokens).placeholders_by_stand_in },
         ⟨happy_template_tokens⟩⟩ = .ok () by
      simp [validate_rule, placeholder_idents, happy_pattern_tokens,
        happy_template_tokens, Placeholder.new]]
  exact ⟨_, hfinal, rfl, rfl⟩

/-- C5 witness: the rule parsed with a concrete grammar oracle. -/
theorem happy_case_spec_witness :
    ∃ rule : SsrRule Unit,
      SsrRule.from_str ⟨fun _ => some (), fun _ => none, fun _ => none,
          fun _ => none, fun _ => none⟩ "foo($a, $b) ==>> bar($b, $a)" = .ok rule
      ∧ rule.pattern.raw.tokens = happy_pattern_tokens
      ∧ rule.template.tokens = happy_template_tokens :=
  happy_case_spec ⟨fun _ => some (), fun _ => none, fun _ => none,
    fun _ => none, fun _ => none⟩ () () rfl rfl

/-- C4 witness: a placeholder-free template with junk placeholder values
renders to its token text plus the comment. -/
theorem render_no_placeholder_spec_witness :
    render_replace (Match.mk ⟨0, 1⟩ 0 "x"
        [PatternElement.token (Token.mk SyntaxKind.IDENT "x")]
        [("z", PlaceholderValue.mk ⟨5, 9⟩ none [])] ["/*c*/"])
      = .ok ("x" ++ "/*c*/") := by
  have := render_no_placeholder_spec
    (Match.mk ⟨0, 1⟩ 0 "x" [PatternElement.token (Token.mk SyntaxKind.IDENT "x")]
      [("z", PlaceholderValue.mk ⟨5, 9⟩ none [])] ["/*c*/"])
    (by intro p hp; simp [Match.template] at hp)
  simpa [Match.template, Match.ignored_comments, concat_token_text] using this

end Ssr
